import Mathlib

/-!
Verification of the gocards core (pkg/gocards/gocards.go) against its
natural-language specification.

The Go code is shallowly embedded: files are lists of lines (`List String`),
Go strings are Lean `String`s (lists of characters; every separator and
marker the code uses is ASCII, so byte indexing and character indexing agree
wherever the code slices after a verified ASCII prefix), `time.Time` values
are modelled as natural numbers, Go `int` as `Int`, and fallible operations
return `Except`/`Option`.
-/

namespace Gocards

/-! ### Character and string utilities used by the source -/

/-- Characters removed by the source's `trim` helper (`strings.Trim(s, " \t")`). -/
def isTrimChar (c : Char) : Bool := c = ' ' || c = '\t'

/-- Embedding of the source's `trim` (`strings.Trim(s, " \t")`): remove leading
and trailing spaces and tabs. -/
def trim (s : String) : String :=
  ⟨((s.data.dropWhile isTrimChar).reverse.dropWhile isTrimChar).reverse⟩

/-- Embedding of `strings.HasPrefix`. -/
def strStartsWith (s p : String) : Bool := p.data.isPrefixOf s.data

/-- Embedding of `strings.HasSuffix`. -/
def strEndsWith (s suf : String) : Bool := suf.data.isSuffixOf s.data

/-- Embedding of `strings.TrimSuffix`: drop one trailing occurrence when present. -/
def trimSuffix (s suf : String) : String :=
  if strEndsWith s suf then ⟨s.data.take (s.data.length - suf.data.length)⟩ else s

/-- Character-level drop, used for Go's slicing `line[n:]` after an ASCII
prefix of length `n` has been checked. -/
def strDrop (s : String) (n : Nat) : String := ⟨s.data.drop n⟩

/-- The separator `" | "` that the source splits definition lines and progress
records on. -/
def barSep : List Char := [' ', '|', ' ']

/-- Embedding of `strings.Split(s, " | ")` at the character level; `" | "` is
the only separator the source ever splits on.  Scans left to right and cuts at
each leftmost occurrence of the separator, exactly like `strings.Split`. -/
def splitBarAux : List Char → List (List Char)
  | ' ' :: '|' :: ' ' :: rest => [] :: splitBarAux rest
  | c :: rest =>
    match splitBarAux rest with
    | [] => [[c]]
    | f :: fs => (c :: f) :: fs
  | [] => [[]]

/-- Embedding of `strings.Split(line, " | ")`. -/
def splitOnBar (s : String) : List String := (splitBarAux s.data).map String.mk

/-- Does the character list contain the separator `" | "` as a contiguous run? -/
def hasBarSep : List Char → Bool
  | [] => false
  | c :: rest => barSep.isPrefixOf (c :: rest) || hasBarSep rest

/-- Does the character list end with the two characters `" |"`?  Relevant
because appending `" | "` directly after such a list creates an earlier
occurrence of the separator. -/
def endsBarPair (l : List Char) : Bool := [' ', '|'].isSuffixOf l

theorem hasBarSep_iff (l : List Char) : hasBarSep l = true ↔ barSep <:+: l := by
  induction l with
  | nil =>
    refine iff_of_false (by simp [hasBarSep]) ?_
    intro h
    have := h.length_le
    simp [barSep] at this
  | cons c rest ih =>
    simp only [hasBarSep, Bool.or_eq_true, List.isPrefixOf_iff_prefix, ih,
      List.infix_cons_iff]

theorem hasBarSep_eq_false_iff (l : List Char) :
    hasBarSep l = false ↔ ¬ barSep <:+: l := by
  rw [← hasBarSep_iff]
  simp

theorem endsBarPair_eq_false_iff (l : List Char) :
    endsBarPair l = false ↔ ¬ [' ', '|'] <:+ l := by
  rw [show (¬ [' ', '|'] <:+ l) = ¬ (endsBarPair l = true) from by
    simp [endsBarPair, List.isSuffixOf_iff_suffix]]
  simp

/-- Containment of the separator is inherited along contiguous sublists. -/
theorem hasBarSep_mono (s t : List Char) (h : s <:+: t) (ht : hasBarSep t = false) :
    hasBarSep s = false := by
  rw [hasBarSep_eq_false_iff] at ht ⊢
  exact fun hb => ht (hb.trans h)

theorem splitBarAux_ne_nil (l : List Char) : splitBarAux l ≠ [] := by
  induction l using splitBarAux.induct with
  | case1 rest ih => simp [splitBarAux]
  | case2 c rest hno hnil ih => simp [splitBarAux, hnil]
  | case3 c rest hno f fs heq ih => simp [splitBarAux, heq]
  | case4 => simp [splitBarAux]

/-- The head field produced by the splitter starts the input. -/
theorem splitBarAux_head_pre (l f : List Char) (fs : List (List Char))
    (h : splitBarAux l = f :: fs) : f <+: l := by
  induction l using splitBarAux.induct generalizing f fs with
  | case1 rest ih =>
    simp only [splitBarAux] at h
    cases h
    exact List.nil_prefix
  | case2 c rest hno hnil ih => exact absurd hnil (splitBarAux_ne_nil rest)
  | case3 c rest hno g gs heq ih =>
    simp only [splitBarAux, heq] at h
    cases h
    obtain ⟨t, ht⟩ := ih g gs heq
    exact ⟨t, by simp [ht]⟩
  | case4 =>
    simp only [splitBarAux] at h
    cases h
    exact List.nil_prefix

/-- No field produced by the splitter contains the separator. -/
theorem splitBarAux_mem_noSep (l f : List Char) (h : f ∈ splitBarAux l) :
    hasBarSep f = false := by
  induction l using splitBarAux.induct generalizing f with
  | case1 rest ih =>
    simp only [splitBarAux] at h
    rcases List.mem_cons.mp h with h | h
    · simp [h, hasBarSep]
    · exact ih f h
  | case2 c rest hno hnil ih => exact absurd hnil (splitBarAux_ne_nil rest)
  | case3 c rest hno g gs heq ih =>
    simp only [splitBarAux, heq] at h
    rcases List.mem_cons.mp h with h | h
    · subst h
      have hg : hasBarSep g = false := ih g (heq ▸ List.mem_cons_self g gs)
      rw [hasBarSep_eq_false_iff] at hg ⊢
      intro hb
      rcases List.infix_cons_iff.mp hb with hb | hb
      · rcases List.cons_prefix_cons.mp hb with ⟨hc, hb⟩
        obtain ⟨t, ht⟩ := splitBarAux_head_pre rest g gs heq
        obtain ⟨u, hu⟩ := hb
        apply hno (u ++ t) hc.symm
        rw [← ht, ← hu]
        simp
      · exact hg hb
    · exact ih f (heq ▸ List.mem_cons_of_mem g h)
  | case4 =>
    simp only [splitBarAux] at h
    simp only [List.mem_singleton] at h
    simp [h, hasBarSep]

/-- Conditional unfolding of the splitter at a cons cell that does not start
with the separator. -/
theorem splitBarAux_cons (c : Char) (l : List Char)
    (hno : ¬ barSep <+: c :: l) :
    splitBarAux (c :: l) =
      match splitBarAux l with
      | [] => [[c]]
      | f :: fs => (c :: f) :: fs := by
  rw [splitBarAux.eq_def]
  split
  · rename_i rest heq
    rw [List.cons_eq_cons] at heq
    exact absurd (by simp [barSep, heq.1, heq.2]) hno
  · rename_i c2 rest hno2 heq
    rw [List.cons_eq_cons] at heq
    cases heq.1
    cases heq.2
    rfl
  · rename_i heq
    exact absurd heq (by simp)

/-- Splitting a separator-free list yields the single field equal to it. -/
theorem splitBarAux_noSep (l : List Char) (h : hasBarSep l = false) :
    splitBarAux l = [l] := by
  induction l with
  | nil => rfl
  | cons c rest ih =>
    have hrest : hasBarSep rest = false := by
      simp only [hasBarSep, Bool.or_eq_false_iff] at h
      exact h.2
    have hno : ¬ barSep <+: c :: rest := by
      rw [hasBarSep_eq_false_iff] at h
      exact fun hb => h hb.isInfix
    rw [splitBarAux_cons c rest hno, ih hrest]

/-- Splitting `a ++ " | " ++ r` cuts exactly at the shown separator, provided
`a` does not contain the separator and does not end with `" |"`. -/
theorem splitBarAux_append (a r : List Char) (h1 : hasBarSep a = false)
    (h2 : endsBarPair a = false) :
    splitBarAux (a ++ barSep ++ r) = a :: splitBarAux r := by
  induction a with
  | nil => simp [barSep, splitBarAux]
  | cons c a ih =>
    have h1a : hasBarSep a = false := by
      simp only [hasBarSep, Bool.or_eq_false_iff] at h1
      exact h1.2
    have h2a : endsBarPair a = false := by
      rw [endsBarPair_eq_false_iff] at h2 ⊢
      intro hs
      exact h2 (hs.trans (List.suffix_cons c a))
    have hno : ¬ barSep <+: c :: (a ++ barSep ++ r) := by
      intro hb
      rcases List.cons_prefix_cons.mp hb with ⟨hc, hb⟩
      rcases a with _ | ⟨d, _ | ⟨e, a2⟩⟩
      · simp only [List.nil_append, barSep] at hb
        rcases List.cons_prefix_cons.mp hb with ⟨hd, _⟩
        exact absurd hd (by decide)
      · simp only [List.cons_append, List.nil_append] at hb
        rcases List.cons_prefix_cons.mp hb with ⟨hd, _⟩
        rw [endsBarPair_eq_false_iff] at h2
        subst hc hd
        exact h2 (by simp)
      · simp only [List.cons_append] at hb
        rcases List.cons_prefix_cons.mp hb with ⟨hd, hb⟩
        rcases List.cons_prefix_cons.mp hb with ⟨he, _⟩
        subst hc hd he
        simp [hasBarSep, barSep, List.isPrefixOf] at h1
    have hsh : (c :: a) ++ barSep ++ r = c :: (a ++ barSep ++ r) := by simp
    rw [hsh, splitBarAux_cons c (a ++ barSep ++ r) hno, ih h1a h2a]


/-! ### Decimal numerals

The progress file stores a serialized timestamp and a `%d`-formatted streak
per record.  `natStr`/`parseNatChars` model decimal printing and parsing of
unsigned numbers; `intStr`/`goAtoi` model `fmt.Sprintf("%d", n)` and
`strconv.Atoi` (overflow of 64-bit ints is not modelled). -/

def digitChar (d : Nat) : Char := Char.ofNat (48 + d)

/-- Decimal numeral of a natural number, most significant digit first. -/
def natStr (n : Nat) : String :=
  if n = 0 then "0" else ⟨((Nat.digits 10 n).map digitChar).reverse⟩

def charDigit (c : Char) : Option Nat :=
  if 48 ≤ c.toNat ∧ c.toNat ≤ 57 then some (c.toNat - 48) else none

def parseNatChars : List Char → Nat → Option Nat
  | [], acc => some acc
  | c :: rest, acc =>
    match charDigit c with
    | none => none
    | some d => parseNatChars rest (10 * acc + d)

/-- Parse a nonempty all-digit character list as a natural number. -/
def parseNatList (l : List Char) : Option Nat :=
  match l with
  | [] => none
  | _ => parseNatChars l 0

/-- Embedding of `fmt.Sprintf("%d", i)` for a Go `int`. -/
def intStr (i : Int) : String :=
  if i < 0 then "-" ++ natStr (-i).toNat else natStr i.toNat

/-- Character-level worker for `goAtoi`. -/
def goAtoiChars : List Char → Option Int
  | [] => none
  | c :: rest =>
    if c = '+' then (parseNatList rest).map (fun n => (n : Int))
    else if c = '-' then (parseNatList rest).map (fun n => -(n : Int))
    else (parseNatList (c :: rest)).map (fun n => (n : Int))

/-- Embedding of `strconv.Atoi`: optional sign followed by at least one
digit; 64-bit overflow is not modelled. -/
def goAtoi (s : String) : Option Int := goAtoiChars s.data

/-- Modelled from the spec: `time.Time.MarshalText` is standard-library code
outside this repository; the spec only requires "a fixed-format serialized
timestamp".  Timestamps are modelled as natural numbers rendered in decimal,
which is injective and sign/space/pipe-free exactly like the RFC 3339 text
the Go library produces. -/
def marshalTime (t : Nat) : String := natStr t

/-- Modelled from the spec: `time.Time.UnmarshalText`, the partial inverse of
`marshalTime` (see there). -/
def unmarshalTime (s : String) : Option Nat := parseNatList s.data

theorem charDigit_digitChar (d : Nat) (h : d < 10) :
    charDigit (digitChar d) = some d := by
  interval_cases d <;> decide

theorem digitChar_toNat (d : Nat) (h : d < 10) : (digitChar d).toNat = 48 + d := by
  interval_cases d <;> decide

theorem parseNatChars_map (ds : List Nat) (h : ∀ d ∈ ds, d < 10) (acc : Nat) :
    parseNatChars (ds.map digitChar) acc =
      some (ds.foldl (fun a d => 10 * a + d) acc) := by
  induction ds generalizing acc with
  | nil => rfl
  | cons d ds ih =>
    have hd : d < 10 := h d (List.mem_cons_self d ds)
    simp only [List.map_cons, parseNatChars, charDigit_digitChar d hd, List.foldl_cons]
    exact ih (fun e he => h e (List.mem_cons_of_mem d he)) _

theorem foldr_eq_ofDigits (ds : List Nat) :
    ds.foldr (fun d a => 10 * a + d) 0 = Nat.ofDigits 10 ds := by
  induction ds with
  | nil => rfl
  | cons d ds ih =>
    simp only [List.foldr_cons, ih, Nat.ofDigits_cons]
    ring

theorem parseNatList_eq (l : List Char) (h : l ≠ []) :
    parseNatList l = parseNatChars l 0 := by
  cases l with
  | nil => exact absurd rfl h
  | cons c rest => rfl

theorem natStr_ne_nil (n : Nat) : (natStr n).data ≠ [] := by
  by_cases h : n = 0
  · simp [natStr, h]
  · simp only [natStr, if_neg h]
    simp [Nat.digits_ne_nil_iff_ne_zero.mpr h]

theorem parse_natStr (n : Nat) : parseNatList (natStr n).data = some n := by
  by_cases h : n = 0
  · subst h
    decide
  · have hd : (Nat.digits 10 n).map digitChar ≠ [] := by
      simp [Nat.digits_ne_nil_iff_ne_zero.mpr h]
    simp only [natStr, if_neg h]
    rw [parseNatList_eq _ (by simpa using hd)]
    rw [← List.map_reverse]
    rw [parseNatChars_map _ (fun d hd2 =>
      Nat.digits_lt_base (by norm_num) (List.mem_reverse.mp hd2)) 0]
    rw [List.foldl_reverse, foldr_eq_ofDigits, Nat.ofDigits_digits]

theorem natStr_chars (n : Nat) (c : Char) (h : c ∈ (natStr n).data) :
    48 ≤ c.toNat ∧ c.toNat ≤ 57 := by
  by_cases h0 : n = 0
  · simp [natStr, h0] at h
    subst h
    decide
  · simp only [natStr, if_neg h0, List.mem_reverse] at h
    obtain ⟨d, hd, hc⟩ := List.mem_map.mp h
    have hlt : d < 10 := Nat.digits_lt_base (by norm_num) hd
    subst hc
    rw [digitChar_toNat d hlt]
    omega

/-- A list of decimal digit characters contains no `" | "` separator and does
not end in `" |"`. -/
theorem digits_noSep (l : List Char) (h : ∀ c ∈ l, 48 ≤ c.toNat ∧ c.toNat ≤ 57) :
    hasBarSep l = false ∧ endsBarPair l = false := by
  constructor
  · rw [hasBarSep_eq_false_iff]
    intro hb
    have hmem : ' ' ∈ l := hb.sublist.mem (by simp [barSep])
    have hco := h _ hmem
    have hval : (' ' : Char).toNat = 32 := rfl
    omega
  · rw [endsBarPair_eq_false_iff]
    intro hb
    have hmem : '|' ∈ l := hb.sublist.mem (by simp)
    have hco := h _ hmem
    have hval : ('|' : Char).toNat = 124 := rfl
    omega

theorem goAtoi_intStr (i : Int) : goAtoi (intStr i) = some i := by
  by_cases h : i < 0
  · have hdata : (intStr i).data = '-' :: (natStr (-i).toNat).data := by
      simp [intStr, if_pos h, String.data_append]
    rw [goAtoi, hdata]
    simp only [goAtoiChars]
    rw [parse_natStr]
    simp
    omega
  · have hne := natStr_ne_nil i.toNat
    have hdata : (intStr i).data = (natStr i.toNat).data := by
      simp [intStr, if_neg h]
    rcases hc : (natStr i.toNat).data with _ | ⟨c, rest⟩
    · exact absurd hc hne
    · have hdig := natStr_chars i.toNat c (by rw [hc]; exact List.mem_cons_self c rest)
      rw [goAtoi, hdata, hc]
      simp only [goAtoiChars]
      rw [if_neg (by intro he; subst he; exact absurd hdig (by decide))]
      rw [if_neg (by intro he; subst he; exact absurd hdig (by decide))]
      rw [← hc, parse_natStr]
      simp
      omega

theorem unmarshal_marshal (t : Nat) : unmarshalTime (marshalTime t) = some t := by
  rw [unmarshalTime, marshalTime, parse_natStr]

theorem marshalTime_noSep (t : Nat) :
    hasBarSep (marshalTime t).data = false ∧ endsBarPair (marshalTime t).data = false :=
  digits_noSep _ (natStr_chars t)

theorem intStr_noSep (i : Int) : hasBarSep (intStr i).data = false := by
  by_cases h : i < 0
  · have hdata : (intStr i).data = '-' :: (natStr (-i).toNat).data := by
      simp [intStr, if_pos h, String.data_append]
    rw [hdata, hasBarSep_eq_false_iff]
    intro hb
    rcases List.infix_cons_iff.mp hb with hb | hb
    · rcases List.cons_prefix_cons.mp hb with ⟨hc, _⟩
      exact absurd hc (by decide)
    · exact (hasBarSep_eq_false_iff _).mp (digits_noSep _ (natStr_chars _)).1 hb
  · have hdata : (intStr i).data = (natStr i.toNat).data := by
      simp [intStr, if_neg h]
    rw [hdata]
    exact (digits_noSep _ (natStr_chars _)).1

/-! ### Data model and spaced-repetition scheduler (gocards.go lines 16-64) -/

/-- Embedding of `var Intervals = [...]int{0, 0, 0, 1, 1, 2, 3, 5, 8, 13, 21,
34, 55, 89, 144, 233, 377}`. -/
def Intervals : List Int := [0, 0, 0, 1, 1, 2, 3, 5, 8, 13, 21, 34, 55, 89, 144, 233, 377]

/-- Embedding of the `Card` struct.  The `Md5` field (a digest of `Id`
computed by the external `crypto/md5` library, used only as an opaque form
token) is not modelled; `LastReviewTime` is in model time units (see
`marshalTime`); `CorrectCount` is a Go `int`. -/
structure Card where
  Id : String
  InCardFile : Bool
  Front : String
  Back : String
  LastReviewTime : Nat
  CorrectCount : Int
deriving DecidableEq, Repr

/-- Embedding of `NewCard`.  Note the source ignores its `inCardFile`
argument and always stores `true`. -/
def NewCard (id : String) (_inCardFile : Bool) (front back : String) : Card :=
  { Id := id, InCardFile := true, Front := front, Back := back,
    LastReviewTime := 0, CorrectCount := 0 }

/-- Embedding of `NewCardStats` (orphaned progress-only card). -/
def NewCardStats (id : String) (lastReviewTime : Nat) (correctCount : Int) : Card :=
  { Id := id, InCardFile := false, Front := "", Back := "",
    LastReviewTime := lastReviewTime, CorrectCount := correctCount }

/-- Embedding of `Card.Blank`. -/
def Blank (card : Card) : Bool := card.Front = "" || card.Back = ""

/-- Embedding of `Card.Interval`:
`index := card.CorrectCount; if card.CorrectCount > len(Intervals) { index = len(Intervals) - 1 }; return Intervals[index]`.
Go array indexing panics outside `[0, len)`; a panic is modelled as `none`. -/
def Interval (card : Card) : Option Int :=
  let index : Int :=
    if card.CorrectCount > (Intervals.length : Int) then (Intervals.length : Int) - 1
    else card.CorrectCount
  if 0 ≤ index then Intervals.get? index.toNat else none

/-- Embedding of `Card.Due`.  `now` is `time.Now()` in model time units;
`elapsed.Hours() < float64(interval)*24` is the exact comparison
`elapsedUnits < interval * unitsPerDay` (with one model unit per nanosecond,
`unitsPerDay = 24*3600*10^9`); the rounding of `float64` is not modelled. -/
def Due (now : Int) (card : Card) : Option (Bool × Int) :=
  match Interval card with
  | none => none
  | some interval =>
    if 0 < interval then
      if now - (card.LastReviewTime : Int) < interval * 86400000000000 then
        some (false, interval)
      else
        some (true, interval)
    else some (false, interval)

/-- Card literal with a given streak, for concrete evaluations. -/
def cardWithCount (n : Int) : Card :=
  { Id := "a", InCardFile := true, Front := "f", Back := "b",
    LastReviewTime := 0, CorrectCount := n }

/-- C1: the claim states `Interval` is total with value
`Intervals[min(CorrectCount, 16)]`, in particular 377 at streak 17.  The
code's clamp tests `CorrectCount > len(Intervals)` (not `>=`), so at
`CorrectCount = 17` it indexes `Intervals[17]` in a 17-element array and
panics instead of returning 377; every other non-negative streak behaves as
claimed.  This theorem evaluates the embedding at the failing input 17 and
at the neighbouring agreeing inputs. -/
theorem C1_interval_off_by_one :
    Interval (cardWithCount 17) = none ∧
    Interval (cardWithCount 16) = some 377 ∧
    Interval (cardWithCount 18) = some 377 ∧
    Interval (cardWithCount 1000) = some 377 ∧
    Interval (cardWithCount 0) = some 0 ∧
    Interval (cardWithCount 3) = some 1 :=
  ⟨rfl, rfl, rfl, rfl, rfl, rfl⟩

/-- C2: whenever the card's interval is defined and 0, `Due` reports
not-due regardless of `LastReviewTime`; whenever it is positive, `Due`
reports due exactly when the elapsed time since `LastReviewTime` is at
least `interval * 24` hours. -/
theorem C2_due_spec (now : Int) (c : Card) (i : Int) (h : Interval c = some i) :
    (i = 0 → Due now c = some (false, i)) ∧
    (0 < i → Due now c =
      some (decide (i * 86400000000000 ≤ now - (c.LastReviewTime : Int)), i)) := by
  constructor
  · intro h0
    subst h0
    simp [Due, h]
  · intro hp
    simp only [Due, h]
    rw [if_pos hp]
    by_cases hlt : now - (c.LastReviewTime : Int) < i * 86400000000000
    · have hd : decide (i * 86400000000000 ≤ now - (c.LastReviewTime : Int)) = false := by
        rw [decide_eq_false_iff_not]
        omega
      rw [if_pos hlt, hd]
    · have hd : decide (i * 86400000000000 ≤ now - (c.LastReviewTime : Int)) = true := by
        rw [decide_eq_true_eq]
        omega
      rw [if_neg hlt, hd]

/-- C2 witness: a card with streak 3 (interval 1 day, last reviewed at time
0) is not due after 12 hours and due after 24 hours. -/
theorem C2_due_spec_witness :
    Due 43200000000000 (cardWithCount 3) = some (false, 1) ∧
    Due 86400000000000 (cardWithCount 3) = some (true, 1) := by
  constructor
  · rw [(C2_due_spec 43200000000000 (cardWithCount 3) 1 rfl).2 (by norm_num)]
    decide
  · rw [(C2_due_spec 86400000000000 (cardWithCount 3) 1 rfl).2 (by norm_num)]
    decide

/-! ### Card file parser (gocards.go lines 321-517) -/

/-- Parse states (`newCard`, `frontMulti`, `frontMultiCode`, `backMulti`,
`backMultiCode`), the source's iota constants. -/
inductive ParseState
  | newCard
  | frontMulti
  | frontMultiCode
  | backMulti
  | backMultiCode
deriving DecidableEq, Repr

/-- Characters matched by Go's regexp class `\s`. -/
def isGoSpace (c : Char) : Bool :=
  c = ' ' || c = '\t' || c = '\n' || c = '\x0c' || c = '\r'

/-- Split a character list at its first `']'`: the characters before it and
the characters after it. -/
def findCloseBracket : List Char → Option (List Char × List Char)
  | [] => none
  | ']' :: rest => some ([], rest)
  | c :: rest => (findCloseBracket rest).map (fun p => (c :: p.1, p.2))

/-- Model of `regexp.MustCompile("^\\s*\\[(.+?)\\](.*)$").FindStringSubmatch(s)`:
anchored at the start, optional whitespace, `[`, a lazy nonempty group up to
the first following `]`, and the rest of the line.  Returns the two capture
groups `(m[1], m[2])` on success; the whole match `m[0]` is `s` itself
because the pattern is anchored at both ends (lines contain no newline). -/
def bracketMatch (s : String) : Option (String × String) :=
  match s.data.dropWhile isGoSpace with
  | '[' :: c :: rest =>
    match findCloseBracket rest with
    | none => none
    | some (a, b) => some (⟨c :: a⟩, ⟨b⟩)
  | _ => none

/-- Embedding of `parseOneSide` (lines 330-357): returns
`(id, front, parseState)`, switching on the trimmed remainder group. -/
def parseOneSide (s : String) : String × String × ParseState :=
  match bracketMatch s with
  | none => (trim s, trim s, ParseState.newCard)
  | some (m1, m2) =>
    if trim m2 = "`" then (trim m1, "", ParseState.frontMulti)
    else if trim m2 = "```" then (trim m1, "```", ParseState.frontMultiCode)
    else (trim m1, trim m2, ParseState.newCard)

/-- Embedding of the second `parseOneSide` variant present in the source
(lines 748-774): switches on the bracketed group `m[1]` instead of the
remainder, never seeds the front with a fence, and returns the whole match
`m[0]` (the entire line, trimmed) as the id. -/
def parseOneSideVariant (s : String) : String × String × ParseState :=
  match bracketMatch s with
  | none => (trim s, trim s, ParseState.newCard)
  | some (m1, _m2) =>
    if trim m1 = "`" then (trim s, "", ParseState.frontMulti)
    else if trim m1 = "```" then (trim s, "", ParseState.frontMultiCode)
    else (trim s, trim m1, ParseState.newCard)

/-- Embedding of `parseTwoSides` (lines 360-391): returns
`(id, front, back, parseState)`. -/
def parseTwoSides (s1 s2 : String) : String × String × String × ParseState :=
  let idFront :=
    match bracketMatch s1 with
    | none => (trim s1, trim s1)
    | some (m1, m2) => (trim m1, trim m2)
  if trim s2 = "`" then (idFront.1, idFront.2, "", ParseState.backMulti)
  else if trim s2 = "```" then (idFront.1, idFront.2, "```", ParseState.backMultiCode)
  else (idFront.1, idFront.2, trim s2, ParseState.newCard)

/-- Line-tagged load error (`errorWithLineNumber`): the source appends
`" on line N"` to the message; modelled structurally. -/
structure LoadError where
  msg : String
  line : Nat
deriving DecidableEq, Repr

/-- State of the scanner loop in `LoadCards`: the `fronts` set of seen ids
(modelled as a list), the accumulated cards, the parse state and the number
of lines consumed so far. -/
structure ScanState where
  fronts : List String
  cards : List Card
  parseState : ParseState
  lineNumber : Nat
deriving DecidableEq, Repr

/-- Embedding of the `addCard` closure in `LoadCards` (lines 408-419). -/
def addCard (fronts : List String) (cards : List Card) (id front back : String) :
    Except String (List String × List Card) :=
  let id2 := trim id
  if id2.data.length = 0 then Except.error "Id can not be the empty string"
  else if fronts.contains id2 then Except.error "Duplicate card id"
  else Except.ok (id2 :: fronts, cards ++ [NewCard id2 true (trim front) (trim back)])

/-- Mutation of `cards[len(cards)-1]`. -/
def updLast (f : Card → Card) : List Card → List Card
  | [] => []
  | [c] => [f c]
  | c :: rest => c :: updLast f rest

/-- One iteration of the scanner loop in `LoadCards` (lines 426-506),
acting on the loop state.  `strDrop line 4` and `strDrop line 6` model the
byte slices `line[len(" | `"):]` and `line[len("``` | "):]` taken after the
corresponding ASCII prefix check. -/
def processLine (st : ScanState) (line : String) : Except LoadError ScanState :=
  let n := st.lineNumber + 1
  match st.parseState with
  | ParseState.newCard =>
    if 0 < line.data.length ∧ ¬ strStartsWith line "#" then
      match splitOnBar line with
      | [s0] =>
        let r := parseOneSide s0
        match addCard st.fronts st.cards r.1 r.2.1 "" with
        | Except.error msg => Except.error ⟨msg, n⟩
        | Except.ok p => Except.ok ⟨p.1, p.2, r.2.2, n⟩
      | [s0, s1] =>
        let r := parseTwoSides s0 s1
        match addCard st.fronts st.cards r.1 r.2.1 r.2.2.1 with
        | Except.error msg => Except.error ⟨msg, n⟩
        | Except.ok p => Except.ok ⟨p.1, p.2, r.2.2.2, n⟩
      | _ => Except.error ⟨"Unexpected number of sides", n⟩
    else Except.ok { st with lineNumber := n }
  | ParseState.frontMulti =>
    if st.cards = [] then Except.error ⟨"Unexpected number of card", n⟩
    else if line = "` | `" then
      Except.ok { st with parseState := ParseState.backMulti, lineNumber := n }
    else if line = "` | ```" then
      Except.ok { st with
        cards := updLast (fun c => { c with Back := "```" }) st.cards,
        parseState := ParseState.backMultiCode, lineNumber := n }
    else if strStartsWith line "` | " then
      Except.ok { st with
        cards := updLast (fun c => { c with Back := strDrop line 4 }) st.cards,
        parseState := ParseState.newCard, lineNumber := n }
    else
      Except.ok { st with
        cards := updLast (fun c =>
          if c.Front = "" then { c with Front := line }
          else { c with Front := c.Front ++ "\n" ++ line }) st.cards,
        lineNumber := n }
  | ParseState.frontMultiCode =>
    if st.cards = [] then Except.error ⟨"Unexpected number of card", n⟩
    else if line = "``` | `" then
      Except.ok { st with
        cards := updLast (fun c => { c with Front := c.Front ++ "\n```" }) st.cards,
        parseState := ParseState.backMulti, lineNumber := n }
    else if line = "``` | ```" then
      Except.ok { st with
        cards := updLast (fun c =>
          { c with Front := c.Front ++ "\n```", Back := "```" }) st.cards,
        parseState := ParseState.backMultiCode, lineNumber := n }
    else if strStartsWith line "``` | " then
      Except.ok { st with
        cards := updLast (fun c =>
          { c with Front := c.Front ++ "\n```", Back := strDrop line 6 }) st.cards,
        parseState := ParseState.newCard, lineNumber := n }
    else
      Except.ok { st with
        cards := updLast (fun c => { c with Front := c.Front ++ "\n" ++ line }) st.cards,
        lineNumber := n }
  | ParseState.backMulti =>
    if st.cards = [] then Except.error ⟨"Unexpected number of card", n⟩
    else if line = "`" then
      Except.ok { st with parseState := ParseState.newCard, lineNumber := n }
    else
      Except.ok { st with
        cards := updLast (fun c =>
          if c.Back = "" then { c with Back := line }
          else { c with Back := c.Back ++ "\n" ++ line }) st.cards,
        lineNumber := n }
  | ParseState.backMultiCode =>
    if st.cards = [] then Except.error ⟨"Unexpected number of card", n⟩
    else if line = "```" then
      Except.ok { st with
        cards := updLast (fun c => { c with Back := c.Back ++ "\n```" }) st.cards,
        parseState := ParseState.newCard, lineNumber := n }
    else
      Except.ok { st with
        cards := updLast (fun c => { c with Back := c.Back ++ "\n" ++ line }) st.cards,
        lineNumber := n }

/-- Initial scanner state. -/
def initState : ScanState :=
  { fronts := [], cards := [], parseState := ParseState.newCard, lineNumber := 0 }

/-- The scanner loop. -/
def scanLines (st : ScanState) : List String → Except LoadError ScanState
  | [] => Except.ok st
  | l :: ls =>
    match processLine st l with
    | Except.error e => Except.error e
    | Except.ok st2 => scanLines st2 ls

/-- Embedding of `LoadCards` (first variant, lines 397-517): the file is
its list of scanner lines. -/
def LoadCards (lines : List String) : Except LoadError (List Card) :=
  match scanLines initState lines with
  | Except.error e => Except.error e
  | Except.ok st =>
    if st.parseState ≠ ParseState.newCard then
      Except.error ⟨"Invalid parse state", st.lineNumber⟩
    else Except.ok st.cards

/-- C9: the two `parseOneSide` variants in the source are not extensionally
equal.  On the bracketed input `"[x] hello"` the first variant returns the
bracketed text `"x"` as the id with the remainder `"hello"` as the front, as
the documented grammar requires; the second variant (switching on the first
capture group and returning the whole match) returns the whole line as the
id and the bracketed text as the front — a different triple. -/
theorem C9_parseOneSide_variants_differ :
    parseOneSide "[x] hello" = ("x", "hello", ParseState.newCard) ∧
    parseOneSideVariant "[x] hello" = ("[x] hello", "x", ParseState.newCard) ∧
    parseOneSideVariant "[x] hello" ≠ parseOneSide "[x] hello" := by
  refine ⟨?_, ?_, ?_⟩ <;> decide

theorem scanLines_cons_ok (st st2 : ScanState) (l : String) (ls : List String)
    (h : processLine st l = Except.ok st2) : scanLines st (l :: ls) = scanLines st2 ls := by
  simp only [scanLines, h]

theorem scanLines_cons_err (st : ScanState) (e : LoadError) (l : String) (ls : List String)
    (h : processLine st l = Except.error e) : scanLines st (l :: ls) = Except.error e := by
  simp only [scanLines, h]

/-- A non-terminator line in the fenced-front state extends the front. -/
theorem processLine_fmc_body (st : ScanState) (line : String)
    (hps : st.parseState = ParseState.frontMultiCode) (hcards : st.cards ≠ [])
    (h : strStartsWith line "``` | " = false) :
    processLine st line = Except.ok { st with
      cards := updLast (fun c => { c with Front := c.Front ++ "\n" ++ line }) st.cards,
      lineNumber := st.lineNumber + 1 } := by
  obtain ⟨fr, cs, ps, n⟩ := st
  simp only at hps hcards
  subst hps
  simp only [processLine]
  rw [if_neg hcards]
  rw [if_neg (fun he => by
    subst he
    exact absurd h (by decide))]
  rw [if_neg (fun he => by
    subst he
    exact absurd h (by decide))]
  rw [if_neg (fun he => by rw [he] at h; exact absurd h (by decide))]

/-- C7: a definition file consisting of `"[y] ```"`, two arbitrary
non-terminator body lines, and `"``` | back text"` loads as exactly one card
whose front is the opening fence, the two body lines and a closing fence
joined by newlines, and whose back is `"back text"`. -/
theorem C7_front_fence_block (l1 l2 : String)
    (h1 : strStartsWith l1 "``` | " = false)
    (h2 : strStartsWith l2 "``` | " = false) :
    LoadCards ["[y] ```", l1, l2, "``` | back text"] = Except.ok
      [⟨"y", true, "```\n" ++ l1 ++ "\n" ++ l2 ++ "\n```", "back text", 0, 0⟩] := by
  have e1 : processLine initState "[y] ```" = Except.ok
      ⟨["y"], [⟨"y", true, "```", "", 0, 0⟩], ParseState.frontMultiCode, 1⟩ := rfl
  have e2 : processLine ⟨["y"], [⟨"y", true, "```", "", 0, 0⟩], ParseState.frontMultiCode, 1⟩ l1 =
      Except.ok ⟨["y"], [⟨"y", true, "```" ++ "\n" ++ l1, "", 0, 0⟩],
        ParseState.frontMultiCode, 2⟩ :=
    processLine_fmc_body _ l1 rfl (by simp) h1
  have e3 : processLine ⟨["y"], [⟨"y", true, "```" ++ "\n" ++ l1, "", 0, 0⟩],
      ParseState.frontMultiCode, 2⟩ l2 =
      Except.ok ⟨["y"], [⟨"y", true, ("```" ++ "\n" ++ l1) ++ "\n" ++ l2, "", 0, 0⟩],
        ParseState.frontMultiCode, 3⟩ :=
    processLine_fmc_body _ l2 rfl (by simp) h2
  have e4 : processLine ⟨["y"], [⟨"y", true, ("```" ++ "\n" ++ l1) ++ "\n" ++ l2, "", 0, 0⟩],
      ParseState.frontMultiCode, 3⟩ "``` | back text" = Except.ok
      ⟨["y"], [⟨"y", true, (("```" ++ "\n" ++ l1) ++ "\n" ++ l2) ++ "\n```", "back text", 0, 0⟩],
        ParseState.newCard, 4⟩ := by
    simp only [processLine]
    rw [if_neg (by simp)]
    rw [if_neg (by decide), if_neg (by decide), if_pos (by decide)]
    rfl
  rw [LoadCards, scanLines_cons_ok _ _ _ _ e1, scanLines_cons_ok _ _ _ _ e2,
    scanLines_cons_ok _ _ _ _ e3, scanLines_cons_ok _ _ _ _ e4]
  simp only [scanLines]
  rw [if_neg (by simp)]
  have hassoc : (("```" ++ "\n" ++ l1) ++ "\n" ++ l2) ++ "\n```" =
      "```\n" ++ l1 ++ "\n" ++ l2 ++ "\n```" := by
    apply String.ext
    simp [String.data_append]
  rw [hassoc]

/-- C7 witness: the fence block with body lines `"a"` and `"b"`. -/
theorem C7_front_fence_block_witness :
    LoadCards ["[y] ```", "a", "b", "``` | back text"] = Except.ok
      [⟨"y", true, "```\na\nb\n```", "back text", 0, 0⟩] :=
  C7_front_fence_block "a" "b" (by decide) (by decide)

theorem updLast_ne_nil (f : Card → Card) (cards : List Card) (h : cards ≠ []) :
    updLast f cards ≠ [] := by
  cases cards with
  | nil => exact absurd rfl h
  | cons c rest =>
    cases rest with
    | nil => simp [updLast]
    | cons d rest2 => simp [updLast]

theorem addCard_error_msg (fronts : List String) (cards : List Card)
    (id front back m : String)
    (h : addCard fronts cards id front back = Except.error m) :
    m = "Id can not be the empty string" ∨ m = "Duplicate card id" := by
  simp only [addCard] at h
  split at h
  · exact Or.inl (Except.error.injEq .. ▸ h).symm
  · split at h
    · exact Or.inr (Except.error.injEq .. ▸ h).symm
    · exact absurd h (by simp)

theorem addCard_ok_cards (fronts : List String) (cards : List Card)
    (id front back : String) (p : List String × List Card)
    (h : addCard fronts cards id front back = Except.ok p) :
    p.2 = cards ++ [NewCard (trim id) true (trim front) (trim back)] ∧
    p.1 = trim id :: fronts := by
  simp only [addCard] at h
  split at h
  · exact absurd h (by simp)
  · split at h
    · exact absurd h (by simp)
    · cases (Except.ok.injEq .. ▸ h).symm
      exact ⟨rfl, rfl⟩

/-- Record-component disequality helper for line-tagged errors. -/
theorem loadErr_msg_ne (m m2 : String) (n : Nat) (h : m ≠ m2) :
    (⟨m, n⟩ : LoadError).msg ≠ m2 := h

/-- In any multi-line state with a nonempty card list, the scanner step
always succeeds and keeps the card list nonempty. -/
theorem processLine_multi_ok (st : ScanState) (line : String)
    (hps : st.parseState ≠ ParseState.newCard) (hcs : st.cards ≠ []) :
    ∃ st2, processLine st line = Except.ok st2 ∧ st2.cards ≠ [] := by
  obtain ⟨fr, cs, ps, n⟩ := st
  simp only at hps hcs
  cases ps with
  | newCard => exact absurd rfl hps
  | frontMulti =>
    simp only [processLine]
    rw [if_neg hcs]
    by_cases h1 : line = "` | `"
    · rw [if_pos h1]
      exact ⟨_, rfl, hcs⟩
    · rw [if_neg h1]
      by_cases h2 : line = "` | ```"
      · rw [if_pos h2]
        exact ⟨_, rfl, updLast_ne_nil _ _ hcs⟩
      · rw [if_neg h2]
        by_cases h3 : strStartsWith line "` | " = true
        · rw [if_pos h3]
          exact ⟨_, rfl, updLast_ne_nil _ _ hcs⟩
        · rw [if_neg h3]
          exact ⟨_, rfl, updLast_ne_nil _ _ hcs⟩
  | frontMultiCode =>
    simp only [processLine]
    rw [if_neg hcs]
    by_cases h1 : line = "``` | `"
    · rw [if_pos h1]
      exact ⟨_, rfl, updLast_ne_nil _ _ hcs⟩
    · rw [if_neg h1]
      by_cases h2 : line = "``` | ```"
      · rw [if_pos h2]
        exact ⟨_, rfl, updLast_ne_nil _ _ hcs⟩
      · rw [if_neg h2]
        by_cases h3 : strStartsWith line "``` | " = true
        · rw [if_pos h3]
          exact ⟨_, rfl, updLast_ne_nil _ _ hcs⟩
        · rw [if_neg h3]
          exact ⟨_, rfl, updLast_ne_nil _ _ hcs⟩
  | backMulti =>
    simp only [processLine]
    rw [if_neg hcs]
    by_cases h1 : line = "`"
    · rw [if_pos h1]
      exact ⟨_, rfl, hcs⟩
    · rw [if_neg h1]
      exact ⟨_, rfl, updLast_ne_nil _ _ hcs⟩
  | backMultiCode =>
    simp only [processLine]
    rw [if_neg hcs]
    by_cases h1 : line = "```"
    · rw [if_pos h1]
      exact ⟨_, rfl, updLast_ne_nil _ _ hcs⟩
    · rw [if_neg h1]
      exact ⟨_, rfl, updLast_ne_nil _ _ hcs⟩

/-- One scanner step from a state satisfying the multi-line invariant
(a multi-line parse state implies a nonempty card list) never produces the
`"Unexpected number of card"` error and preserves the invariant. -/
theorem processLine_good_step (st : ScanState) (line : String)
    (hgood : st.parseState ≠ ParseState.newCard → st.cards ≠ []) :
    (∀ e, processLine st line = Except.error e → e.msg ≠ "Unexpected number of card") ∧
    (∀ st2, processLine st line = Except.ok st2 →
      (st2.parseState ≠ ParseState.newCard → st2.cards ≠ [])) := by
  by_cases hps : st.parseState = ParseState.newCard
  · obtain ⟨fr, cs, ps, n⟩ := st
    simp only at hps
    subst hps
    simp only [processLine]
    by_cases hg : 0 < line.data.length ∧ ¬ strStartsWith line "#"
    · rw [if_pos hg]
      rcases hsides : splitOnBar line with _ | ⟨s0, _ | ⟨s1, _ | ⟨s2, more⟩⟩⟩
      · refine ⟨fun e he => ?_, fun st2 hok => ?_⟩
        · cases he
          exact loadErr_msg_ne _ _ _ (by decide)
        · exact absurd hok (by simp)
      · rcases hadd : addCard fr cs (parseOneSide s0).1 (parseOneSide s0).2.1 "" with m | p
        · refine ⟨fun e he => ?_, fun st2 hok => ?_⟩
          · simp only [hadd] at he
            cases he
            rcases addCard_error_msg _ _ _ _ _ _ hadd with h | h <;>
              exact h ▸ loadErr_msg_ne _ _ _ (by decide)
          · simp only [hadd] at hok
            exact absurd hok (by simp)
        · refine ⟨fun e he => ?_, fun st2 hok => ?_⟩
          · simp only [hadd] at he
            exact absurd he (by simp)
          · simp only [hadd] at hok
            cases hok
            intro hps2
            simp only
            rw [(addCard_ok_cards _ _ _ _ _ _ hadd).1]
            simp
      · rcases hadd : addCard fr cs (parseTwoSides s0 s1).1 (parseTwoSides s0 s1).2.1
            (parseTwoSides s0 s1).2.2.1 with m | p
        · refine ⟨fun e he => ?_, fun st2 hok => ?_⟩
          · simp only [hadd] at he
            cases he
            rcases addCard_error_msg _ _ _ _ _ _ hadd with h | h <;>
              exact h ▸ loadErr_msg_ne _ _ _ (by decide)
          · simp only [hadd] at hok
            exact absurd hok (by simp)
        · refine ⟨fun e he => ?_, fun st2 hok => ?_⟩
          · simp only [hadd] at he
            exact absurd he (by simp)
          · simp only [hadd] at hok
            cases hok
            intro hps2
            simp only
            rw [(addCard_ok_cards _ _ _ _ _ _ hadd).1]
            simp
      · refine ⟨fun e he => ?_, fun st2 hok => ?_⟩
        · cases he
          exact loadErr_msg_ne _ _ _ (by decide)
        · exact absurd hok (by simp)
    · rw [if_neg hg]
      refine ⟨fun e he => absurd he (by simp), fun st2 hok => ?_⟩
      cases hok
      intro hps2
      exact absurd rfl hps2
  · obtain ⟨st2, hok, hcs2⟩ := processLine_multi_ok st line hps (hgood hps)
    refine ⟨fun e he => ?_, fun st3 hok3 => ?_⟩
    · rw [hok] at he
      exact absurd he (by simp)
    · rw [hok] at hok3
      cases hok3
      exact fun _ => hcs2

/-- The scanner never produces the `"Unexpected number of card"` error from
a state satisfying the multi-line invariant, and final states satisfy it. -/
theorem scanLines_good (lines : List String) (st : ScanState)
    (hgood : st.parseState ≠ ParseState.newCard → st.cards ≠ []) :
    (∀ e, scanLines st lines = Except.error e → e.msg ≠ "Unexpected number of card") ∧
    (∀ st2, scanLines st lines = Except.ok st2 →
      (st2.parseState ≠ ParseState.newCard → st2.cards ≠ [])) := by
  induction lines generalizing st with
  | nil =>
    refine ⟨fun e he => absurd he (by simp [scanLines]), fun st2 hok => ?_⟩
    simp only [scanLines] at hok
    cases hok
    exact hgood
  | cons l ls ih =>
    rcases hp : processLine st l with e0 | st0
    · rw [scanLines_cons_err st e0 l ls hp]
      refine ⟨fun e he => ?_, fun st2 hok => absurd hok (by simp)⟩
      cases he
      exact (processLine_good_step st l hgood).1 e0 hp
    · rw [scanLines_cons_ok st st0 l ls hp]
      exact ih st0 ((processLine_good_step st l hgood).2 st0 hp)

/-- C10: invariant of the `LoadCards` scanner loop — in every reachable
state whose parse state is one of the four multi-line states, the
accumulated card list is nonempty; consequently the
`"Unexpected number of card"` branches are unreachable and `LoadCards`
never returns that error, for any input file. -/
theorem C10_no_unexpected_card_error :
    (∀ lines st, scanLines initState lines = Except.ok st →
      st.parseState ≠ ParseState.newCard → st.cards ≠ []) ∧
    (∀ lines n, LoadCards lines ≠
      Except.error ⟨"Unexpected number of card", n⟩) := by
  constructor
  · intro lines st hok
    exact (scanLines_good lines initState (fun h => absurd rfl h)).2 st hok
  · intro lines n heq
    rw [LoadCards] at heq
    rcases hs : scanLines initState lines with e | st <;> rw [hs] at heq
    · cases heq
      exact (scanLines_good lines initState (fun h => absurd rfl h)).1 _ hs rfl
    · have heq2 : (if st.parseState ≠ ParseState.newCard then
          Except.error (⟨"Invalid parse state", st.lineNumber⟩ : LoadError)
          else Except.ok st.cards) =
          Except.error (⟨"Unexpected number of card", n⟩ : LoadError) := heq
      by_cases hps : st.parseState ≠ ParseState.newCard
      · rw [if_pos hps] at heq2
        injection heq2 with h1
        injection h1 with hm hn
        exact absurd hm (by decide)
      · rw [if_neg hps] at heq2
        exact absurd heq2 (by simp)

/-- C10 witness: after scanning the single line `"[a] `"` the scanner is in
the `frontMulti` state and the invariant yields a nonempty card list. -/
theorem C10_no_unexpected_card_error_witness :
    ∃ st, scanLines initState ["[a] `"] = Except.ok st ∧ st.cards ≠ [] := by
  refine ⟨⟨["a"], [⟨"a", true, "", "", 0, 0⟩], ParseState.frontMulti, 1⟩, rfl, ?_⟩
  exact C10_no_unexpected_card_error.1 ["[a] `"] _ rfl (by decide)

theorem processLine_lineNumber (st : ScanState) (line : String) (st2 : ScanState)
    (h : processLine st line = Except.ok st2) : st2.lineNumber = st.lineNumber + 1 := by
  obtain ⟨fr, cs, ps, n⟩ := st
  cases ps <;> simp only [processLine] at h <;>
    (repeat' split at h) <;>
    first
      | (cases h; rfl)
      | exact absurd h (by simp)

theorem scanLines_lineNumber (lines : List String) (st st2 : ScanState)
    (h : scanLines st lines = Except.ok st2) :
    st2.lineNumber = st.lineNumber + lines.length := by
  induction lines generalizing st with
  | nil =>
    simp only [scanLines] at h
    cases h
    simp
  | cons l ls ih =>
    rcases hp : processLine st l with e | st0
    · rw [scanLines_cons_err st e l ls hp] at h
      exact absurd h (by simp)
    · rw [scanLines_cons_ok st st0 l ls hp] at h
      rw [ih st0 h, processLine_lineNumber st l st0 hp]
      simp only [List.length_cons]
      omega

theorem scanLines_append_ok (a b : List String) (st st2 : ScanState)
    (h : scanLines st a = Except.ok st2) :
    scanLines st (a ++ b) = scanLines st2 b := by
  induction a generalizing st with
  | nil =>
    simp only [scanLines] at h
    cases h
    simp
  | cons l ls ih =>
    rcases hp : processLine st l with e | st0
    · rw [scanLines_cons_err st e l ls hp] at h
      exact absurd h (by simp)
    · rw [scanLines_cons_ok st st0 l ls hp] at h
      rw [List.cons_append, scanLines_cons_ok st st0 l (ls ++ b) hp]
      exact ih st0 h

/-- The id that a line consumed in the `newCard` state contributes to
`addCard` — `(parseOneSide sides[0]).1` for one field,
`(parseTwoSides sides[0] sides[1]).1` for two. -/
def newCardLineId (line : String) : Option String :=
  match splitOnBar line with
  | [s0] => some (parseOneSide s0).1
  | [s0, s1] => some (parseTwoSides s0 s1).1
  | _ => none

theorem addCard_bad_id (fronts : List String) (cards : List Card)
    (id front back : String)
    (hbad : trim id = "" ∨ fronts.contains (trim id) = true) :
    ∃ msg, (msg = "Id can not be the empty string" ∨ msg = "Duplicate card id") ∧
      addCard fronts cards id front back = Except.error msg := by
  simp only [addCard]
  by_cases hz : (trim id).data.length = 0
  · exact ⟨_, Or.inl rfl, by rw [if_pos hz]⟩
  · have hc : fronts.contains (trim id) = true := by
      rcases hbad with hb | hb
      · exact absurd (by rw [hb]; rfl) hz
      · exact hb
    exact ⟨_, Or.inr rfl, by rw [if_neg hz, if_pos hc]⟩

/-- C8: a line consumed in the `newCard` state whose extracted id trims to
the empty string, or duplicates an id recorded earlier (`st.fronts`), makes
`LoadCards` fail at that line's 1-based number with the corresponding
`addCard` message, returning no card list. -/
theorem C8_dup_or_empty_id (pre : List String) (line : String) (rest : List String)
    (st : ScanState) (hscan : scanLines initState pre = Except.ok st)
    (hst : st.parseState = ParseState.newCard)
    (hne : 0 < line.data.length) (hcm : strStartsWith line "#" = false)
    (i : String) (hid : newCardLineId line = some i)
    (hbad : trim i = "" ∨ st.fronts.contains (trim i) = true) :
    ∃ msg, (msg = "Id can not be the empty string" ∨ msg = "Duplicate card id") ∧
      LoadCards (pre ++ line :: rest) = Except.error ⟨msg, pre.length + 1⟩ := by
  have hn : st.lineNumber = pre.length := by
    have h0 := scanLines_lineNumber pre initState st hscan
    simpa [initState] using h0
  obtain ⟨fr, cs, ps, n⟩ := st
  simp only at hst hn
  subst hst hn
  simp only at hbad
  rw [newCardLineId] at hid
  rcases hsides : splitOnBar line with _ | ⟨s0, _ | ⟨s1, _ | ⟨s2, more⟩⟩⟩ <;>
    rw [hsides] at hid
  · exact absurd hid (by simp)
  · have hi : (parseOneSide s0).1 = i := by
      injection hid
    obtain ⟨msg, hmsg, herr⟩ := addCard_bad_id fr cs i (parseOneSide s0).2.1 "" hbad
    refine ⟨msg, hmsg, ?_⟩
    have hpl : processLine ⟨fr, cs, ParseState.newCard, pre.length⟩ line =
        Except.error ⟨msg, pre.length + 1⟩ := by
      simp only [processLine]
      rw [if_pos ⟨hne, by rw [hcm]; simp⟩]
      rw [hsides]
      simp only [hi, herr]
    rw [LoadCards, scanLines_append_ok pre (line :: rest) initState _ hscan,
      scanLines_cons_err _ _ _ _ hpl]
  · have hi : (parseTwoSides s0 s1).1 = i := by
      injection hid
    obtain ⟨msg, hmsg, herr⟩ :=
      addCard_bad_id fr cs i (parseTwoSides s0 s1).2.1 (parseTwoSides s0 s1).2.2.1 hbad
    refine ⟨msg, hmsg, ?_⟩
    have hpl : processLine ⟨fr, cs, ParseState.newCard, pre.length⟩ line =
        Except.error ⟨msg, pre.length + 1⟩ := by
      simp only [processLine]
      rw [if_pos ⟨hne, by rw [hcm]; simp⟩]
      rw [hsides]
      simp only [hi, herr]
    rw [LoadCards, scanLines_append_ok pre (line :: rest) initState _ hscan,
      scanLines_cons_err _ _ _ _ hpl]
  · exact absurd hid (by simp)

/-- C8 witness: the file `["dup | a", "dup | b"]` fails with the duplicate-id
error tagged with line 2, the second occurrence. -/
theorem C8_dup_or_empty_id_witness :
    ∃ msg, (msg = "Id can not be the empty string" ∨ msg = "Duplicate card id") ∧
      LoadCards ["dup | a", "dup | b"] = Except.error ⟨msg, 2⟩ :=
  C8_dup_or_empty_id ["dup | a"] "dup | b" []
    ⟨["dup"], [⟨"dup", true, "dup", "a", 0, 0⟩], ParseState.newCard, 1⟩
    rfl rfl (by decide) (by decide) "dup" rfl (by decide)

/-! ### Card set discovery (gocards.go lines 108-300)

The filesystem is modelled as the list of its regular files in lexical
order, with `/` as path separator (the POSIX configuration: the source's
`os.PathSeparator` normalization is then the identity).  `filepath.Walk`
visits files in lexical order and skips directories via the `f.IsDir()`
guard, so walking is filtering; walking a nonexistent root (an I/O error)
is not modelled — the claims quantify over successful discovery.
`filepath.Join` is modelled for already-clean paths (no `.`/`..`/double
separators, which never arise here); `filepath.Rel` is modelled for the
ancestor cases the walker produces, other cases being failures. -/

/-- Embedding of `filepath.Join` on clean paths. -/
def goJoin (a b : String) : String :=
  if a = "" then b else if b = "" then a else a ++ "/" ++ b

/-- Embedding of `filepath.Rel` for the ancestor cases. -/
def goRel (base targ : String) : Option String :=
  if targ = base then some "."
  else if strStartsWith targ (base ++ "/") then
    some (strDrop targ (base ++ "/").data.length)
  else none

/-- Embedding of `filepath.Walk`, collecting the regular files below (or
equal to) `root` in the filesystem's lexical order. -/
def goWalk (fs : List String) (root : String) : List String :=
  fs.filter (fun p => p = root || strStartsWith p (root ++ "/"))

/-- Embedding of the `CardSet` struct. -/
structure CardSet where
  Id : String
  CardFilePath : String
  CardDataPath : String
  Cards : List Card
deriving DecidableEq, Repr

/-- Embedding of `NewCardSet` (`Cards` starts nil). -/
def NewCardSet (id cardFilePath cardDataPath : String) : CardSet :=
  ⟨id, cardFilePath, cardDataPath, []⟩

/-- Embedding of the `CardSetPath` struct (one remap rule). -/
structure CardSetPath where
  RootPath : String
  RelativePath : String
  RenamePath : String
deriving DecidableEq, Repr

/-- Embedding of `findRootPathCardSets`: walk the root, keep `.cd` files,
id is the path relative to the root (suffix kept), data path appends `"d"`. -/
def findRootPathCardSets (fs : List String) (rootPath : String) :
    Option (List CardSet) :=
  ((goWalk fs rootPath).filter (fun p => strEndsWith p ".cd")).mapM
    (fun p => (goRel rootPath p).map (fun id => NewCardSet id p (p ++ "d")))

/-- The card sets contributed by one remap rule in `findRemotePathCardSets`
(the body of its per-rule walk, lines 228-270). -/
def remoteCardSetsForRule (fs : List String) (rootPath : String)
    (csp : CardSetPath) : Option (List CardSet) :=
  ((goWalk fs (goJoin csp.RootPath csp.RelativePath)).filter
      (fun p => strEndsWith p ".cd")).mapM
    (fun path =>
      if strEndsWith csp.RelativePath ".cd" = true then
        if 0 < csp.RenamePath.data.length then
          some (NewCardSet (trimSuffix csp.RenamePath ".cd") path
            (goJoin rootPath csp.RenamePath ++ ".d"))
        else
          some (NewCardSet (trimSuffix csp.RelativePath ".cd") path
            (goJoin rootPath csp.RelativePath ++ ".d"))
      else
        (goRel csp.RootPath path).bind (fun relPath =>
          if 0 < csp.RenamePath.data.length then
            (goRel (goJoin csp.RootPath csp.RelativePath) path).map (fun endPath =>
              NewCardSet (trimSuffix (goJoin csp.RenamePath endPath) ".cd") path
                (goJoin (goJoin rootPath csp.RenamePath) endPath ++ "d"))
          else
            some (NewCardSet (trimSuffix (goJoin rootPath relPath) ".cd") path
              (goJoin rootPath relPath ++ "d"))))

/-- Embedding of `findRemotePathCardSets`: process rules in order, appending
each rule's results; any error aborts with no partial result. -/
def findRemotePathCardSets (fs : List String) (rootPath : String) :
    List CardSetPath → List CardSet → Option (List CardSet)
  | [], cardSets => some cardSets
  | csp :: rest, cardSets =>
    match remoteCardSetsForRule fs rootPath csp with
    | none => none
    | some new => findRemotePathCardSets fs rootPath rest (cardSets ++ new)

/-- Embedding of `FindCardSets`: local results, then remote results. -/
def FindCardSets (fs : List String) (rootPath : String)
    (cardSetPaths : List CardSetPath) : Option (List CardSet) :=
  match findRootPathCardSets fs rootPath with
  | none => none
  | some cardSets => findRemotePathCardSets fs rootPath cardSetPaths cardSets

/-- C5 counterexample: for the remap rule
`("/ext", "lang/nouns.cd", "words/nouns.cd")` the code produces exactly one
CardSet with logical id `"words/nouns"` as claimed, but its progress
location appends `".d"` to the renamed path — `"out/words/nouns.cd.d"` —
not the claimed definition-extension-plus-`"d"` form `"out/words/nouns.cdd"`. -/
theorem C5_counterexample :
    findRemotePathCardSets ["/ext/lang/nouns.cd"] "out"
      [⟨"/ext", "lang/nouns.cd", "words/nouns.cd"⟩] [] =
      some [⟨"words/nouns", "/ext/lang/nouns.cd", "out/words/nouns.cd.d", []⟩] ∧
    "out/words/nouns.cd.d" ≠ "out/words/nouns.cdd" := by
  exact ⟨rfl, by decide⟩

/-- C5 (amended): a remap rule whose sub-path ends with `".cd"` and that
carries a rename target, walking to exactly one `.cd` file, contributes
exactly one CardSet whose id is the rename target with the suffix stripped
and whose progress location is the renamed path under the output root with
`".d"` appended. -/
theorem C5_remap_single_file (fs : List String) (root : String)
    (csp : CardSetPath) (f : String) (cardSets : List CardSet)
    (hrel : strEndsWith csp.RelativePath ".cd" = true)
    (hren : 0 < csp.RenamePath.data.length)
    (hwalk : goWalk fs (goJoin csp.RootPath csp.RelativePath) = [f])
    (hf : strEndsWith f ".cd" = true) :
    findRemotePathCardSets fs root [csp] cardSets =
      some (cardSets ++ [NewCardSet (trimSuffix csp.RenamePath ".cd") f
        (goJoin root csp.RenamePath ++ ".d")]) := by
  have hrule : remoteCardSetsForRule fs root csp =
      some [NewCardSet (trimSuffix csp.RenamePath ".cd") f
        (goJoin root csp.RenamePath ++ ".d")] := by
    rw [remoteCardSetsForRule, hwalk]
    have hren2 : 0 < csp.RenamePath.length := hren
    simp [hf, hrel, hren2, List.mapM.loop]
  simp only [findRemotePathCardSets, hrule]

/-- C5 witness: the amended statement at the rule
`("/ext", "lang/nouns.cd", "words/nouns.cd")` over the one-file filesystem. -/
theorem C5_remap_single_file_witness :
    findRemotePathCardSets ["/ext/lang/nouns.cd"] "out"
      [⟨"/ext", "lang/nouns.cd", "words/nouns.cd"⟩] [] =
      some [⟨"words/nouns", "/ext/lang/nouns.cd", "out/words/nouns.cd.d", []⟩] := by
  have h := C5_remap_single_file ["/ext/lang/nouns.cd"] "out"
    ⟨"/ext", "lang/nouns.cd", "words/nouns.cd"⟩ "/ext/lang/nouns.cd" []
    rfl (by decide) rfl rfl
  exact h

/-- Membership through a successful `Option`-valued `mapM`. -/
theorem mapM_option_mem (f : String → Option CardSet) (l : List String)
    (r : List CardSet) (h : l.mapM f = some r) (y : CardSet) (hy : y ∈ r) :
    ∃ x ∈ l, f x = some y := by
  induction l generalizing r with
  | nil =>
    simp only [List.mapM_nil, Option.pure_def, Option.some.injEq] at h
    subst h
    simp at hy
  | cons x xs ih =>
    simp only [List.mapM_cons] at h
    rcases hfx : f x with _ | b <;> rw [hfx] at h
    · simp at h
    · rcases hms : xs.mapM f with _ | bs <;> rw [hms] at h
      · simp at h
      · simp only [Option.pure_def, Option.bind_some, Option.bind_eq_bind,
          Option.some_bind, Option.some.injEq] at h
        subst h
        rcases List.mem_cons.mp hy with hy | hy
        · exact ⟨x, List.mem_cons_self x xs, hy ▸ hfx⟩
        · obtain ⟨x2, hx2, hfx2⟩ := ih bs hms hy
          exact ⟨x2, List.mem_cons_of_mem x hx2, hfx2⟩

theorem findRemote_decomp (fs : List String) (root : String)
    (rules : List CardSetPath) (acc res : List CardSet)
    (h : findRemotePathCardSets fs root rules acc = some res) :
    ∃ rems, List.Forall₂
        (fun rule out => remoteCardSetsForRule fs root rule = some out) rules rems ∧
      res = acc ++ rems.flatten := by
  induction rules generalizing acc with
  | nil =>
    simp only [findRemotePathCardSets, Option.some.injEq] at h
    exact ⟨[], List.Forall₂.nil, by simp [h]⟩
  | cons rule rest ih =>
    simp only [findRemotePathCardSets] at h
    rcases hr : remoteCardSetsForRule fs root rule with _ | new <;> rw [hr] at h
    · exact absurd h (by simp)
    · obtain ⟨rems, hall, hres⟩ := ih (acc ++ new) h
      exact ⟨new :: rems, List.Forall₂.cons hr hall, by simp [hres]⟩

/-- C6 (amended): `FindCardSets` returns the local walk results followed by
each rule's remote results concatenated in rule order, with no sorting
applied (the HTTP layer sorts separately); every local CardSet comes from a
walked `.cd` file with id the root-relative path (the `.cd` suffix kept),
while remote ids are produced suffix-stripped by `remoteCardSetsForRule`. -/
theorem C6_local_then_remote_unsorted (fs : List String) (root : String)
    (rules : List CardSetPath) (res : List CardSet)
    (h : FindCardSets fs root rules = some res) :
    ∃ loc rems, findRootPathCardSets fs root = some loc ∧
      List.Forall₂
        (fun rule out => remoteCardSetsForRule fs root rule = some out) rules rems ∧
      res = loc ++ rems.flatten ∧
      ∀ cs2 ∈ loc, ∃ p, strEndsWith p ".cd" = true ∧ goRel root p = some cs2.Id ∧
        cs2.CardFilePath = p ∧ cs2.CardDataPath = p ++ "d" := by
  rw [FindCardSets] at h
  rcases hloc : findRootPathCardSets fs root with _ | loc <;> rw [hloc] at h
  · exact absurd h (by simp)
  · obtain ⟨rems, hall, hres⟩ := findRemote_decomp fs root rules loc res h
    refine ⟨loc, rems, rfl, hall, hres, fun cs2 hmem => ?_⟩
    rw [findRootPathCardSets] at hloc
    obtain ⟨p, hp, hfp⟩ := mapM_option_mem _ _ _ hloc cs2 hmem
    have hpcd : strEndsWith p ".cd" = true := (List.mem_filter.mp hp).2
    rcases hrel : goRel root p with _ | id <;> rw [hrel] at hfp
    · simp at hfp
    · simp only [Option.map_some', Option.some.injEq] at hfp
      subst hfp
      exact ⟨p, hpcd, hrel, rfl, rfl⟩

/-- C6 witness: the amended decomposition at a one-file local tree with no
remap rules. -/
theorem C6_local_then_remote_unsorted_witness :
    ∃ loc rems, findRootPathCardSets ["r/b.cd"] "r" = some loc ∧
      List.Forall₂
        (fun rule out => remoteCardSetsForRule ["r/b.cd"] "r" rule = some out) [] rems ∧
      [NewCardSet "b.cd" "r/b.cd" "r/b.cdd"] = loc ++ rems.flatten ∧
      ∀ cs2 ∈ loc, ∃ p, strEndsWith p ".cd" = true ∧ goRel "r" p = some cs2.Id ∧
        cs2.CardFilePath = p ∧ cs2.CardDataPath = p ++ "d" :=
  C6_local_then_remote_unsorted ["r/b.cd"] "r" [] [NewCardSet "b.cd" "r/b.cd" "r/b.cdd"] rfl

/-- C6 counterexample: with local file `r/b.cd` and the remap rule
`("/ext", "a.cd", "")` over file `/ext/a.cd`, `FindCardSets` returns ids
`["b.cd", "a"]` — not sorted lexicographically (`"a" < "b.cd"`), the local
id keeping the `.cd` suffix and the remote id stripping it. -/
theorem C6_counterexample :
    FindCardSets ["r/b.cd", "/ext/a.cd"] "r" [⟨"/ext", "a.cd", ""⟩] =
      some [⟨"b.cd", "r/b.cd", "r/b.cdd", []⟩, ⟨"a", "/ext/a.cd", "r/a.cd.d", []⟩] ∧
    ¬ ("b.cd" ≤ "a") ∧
    strEndsWith "b.cd" ".cd" = true ∧ strEndsWith "a" ".cd" = false :=
  ⟨rfl, by rw [String.le_iff_toList_le]; decide, rfl, rfl⟩

/-! ### Progress store (gocards.go lines 522-613) -/

/-- The in-place update loop of `LoadCardData`: find the first card with the
record's id and overwrite its streak and review time; the Boolean is the
`found` flag. -/
def updFirst (id : String) (t : Nat) (cc : Int) : List Card → List Card × Bool
  | [] => ([], false)
  | c :: rest =>
    if c.Id = id then ({ c with CorrectCount := cc, LastReviewTime := t } :: rest, true)
    else
      let r := updFirst id t cc rest
      (c :: r.1, r.2)

/-- Applying one progress record: overwrite the first matching card, or
append a synthesized orphaned card when no card matches. -/
def mergeRecord (cards : List Card) (id : String) (t : Nat) (cc : Int) : List Card :=
  let r := updFirst id t cc cards
  if r.2 then r.1 else cards ++ [NewCardStats id t cc]

/-- One line of the progress file in `LoadCardData`: split on `" | "`, check
for exactly 3 fields, parse the timestamp and the streak, then merge. -/
def processDataLine (cards : List Card) (line : String) : Except String (List Card) :=
  match splitOnBar line with
  | [id, ts, cs] =>
    match unmarshalTime ts with
    | none => Except.error "parsing time"
    | some lastReviewTime =>
      match goAtoi cs with
      | none => Except.error "invalid syntax"
      | some correctCount =>
        Except.ok (mergeRecord cards id lastReviewTime correctCount)
  | _ => Except.error "Invalid line found in card data"

/-- The scanner loop of `LoadCardData`. -/
def processDataLines (cards : List Card) : List String → Except String (List Card)
  | [] => Except.ok cards
  | l :: ls =>
    match processDataLine cards l with
    | Except.error e => Except.error e
    | Except.ok cards2 => processDataLines cards2 ls

/-- Embedding of `LoadCardData`: `none` is a nonexistent progress file
(`os.Stat` + `ErrNotExist`), returned as-is with no error. -/
def LoadCardData (progress : Option (List String)) (cards : List Card) :
    Except String (List Card) :=
  match progress with
  | none => Except.ok cards
  | some lines => processDataLines cards lines

/-- The cards `SaveCardData` writes: with `clean` set, orphaned cards
(`InCardFile = false`) are skipped by the loop's `continue`. -/
def savedCards (cards : List Card) (clean : Bool) : List Card :=
  cards.filter (fun c => !(clean && !c.InCardFile))

/-- One written record: `fmt.Sprintf("%s | %s | %d\n", ...)`, as a line. -/
def saveLine (c : Card) : String :=
  c.Id ++ " | " ++ marshalTime c.LastReviewTime ++ " | " ++ intStr c.CorrectCount

/-- Embedding of `SaveCardData`: the written progress file as its lines. -/
def SaveCardData (cards : List Card) (clean : Bool) : List String :=
  (savedCards cards clean).map saveLine

/-- Embedding of `CardSet.Load`: `LoadCards` on the definition file then
`LoadCardData` on the progress file; either error aborts the load. -/
def loadCardSet (defLines : List String) (progress : Option (List String)) :
    Option (List Card) :=
  match LoadCards defLines with
  | Except.error _ => none
  | Except.ok cards =>
    match LoadCardData progress cards with
    | Except.error _ => none
    | Except.ok cards2 => some cards2

/-- A progress line the code rejects: not exactly 3 `" | "`-fields, an
unparsable timestamp, or a third field `strconv.Atoi` rejects. -/
def malformedLine (line : String) : Bool :=
  match splitOnBar line with
  | [_, ts, cs] => (unmarshalTime ts).isNone || (goAtoi cs).isNone
  | _ => true

/-- The claim's notion of a malformed record, stated from the claim's words
for comparison with the code's `malformedLine`: it additionally rejects a
third field that parses to a negative integer ("a non-negative integer
streak"). -/
def claimMalformedLine (line : String) : Bool :=
  match splitOnBar line with
  | [_, ts, cs] => (unmarshalTime ts).isNone ||
      (match goAtoi cs with
       | none => true
       | some n => decide (n < 0))
  | _ => true

theorem processDataLine_error_iff (cards : List Card) (line : String) :
    (∃ e, processDataLine cards line = Except.error e) ↔ malformedLine line = true := by
  rw [processDataLine, malformedLine]
  rcases hs : splitOnBar line with _ | ⟨a, _ | ⟨b, _ | ⟨c, _ | ⟨d, more⟩⟩⟩⟩
  · simp
  · simp
  · simp
  · rcases ht : unmarshalTime b with _ | t
    · simp [ht]
    · rcases ha : goAtoi c with _ | n <;> simp [ht, ha]
  · simp

/-- C4 counterexample: the progress line `"a | 0 | -1"` is malformed per the
claim (negative streak) yet `LoadCardData` accepts it, synthesizing an
orphan with streak `-1` — `strconv.Atoi` accepts signed integers. -/
theorem C4_counterexample :
    claimMalformedLine "a | 0 | -1" = true ∧
    LoadCardData (some ["a | 0 | -1"]) [] =
      Except.ok [NewCardStats "a" 0 (-1)] :=
  ⟨rfl, rfl⟩

/-- C4 (amended): `LoadCardData` on a nonexistent progress file returns the
defined cards unchanged with no error; on an existing file it errors
exactly when some line is malformed — not exactly 3 fields, unparsable
timestamp, or a third field that is not an `Atoi`-parsable (possibly
negative) integer. -/
theorem C4_load_data_error_iff (lines : List String) (cards : List Card) :
    LoadCardData none cards = Except.ok cards ∧
    ((∃ e, LoadCardData (some lines) cards = Except.error e) ↔
      ∃ l ∈ lines, malformedLine l = true) := by
  refine ⟨rfl, ?_⟩
  rw [LoadCardData]
  induction lines generalizing cards with
  | nil => simp [processDataLines]
  | cons l ls ih =>
    by_cases hm : malformedLine l = true
    · obtain ⟨e, he⟩ := (processDataLine_error_iff cards l).mpr hm
      simp only [processDataLines, he]
      refine iff_of_true ⟨e, rfl⟩ ⟨l, List.mem_cons_self l ls, hm⟩
    · rcases hp : processDataLine cards l with e | cards2
      · exact absurd ((processDataLine_error_iff cards l).mp ⟨e, hp⟩) hm
      · simp only [processDataLines, hp]
        rw [ih cards2]
        constructor
        · intro ⟨l2, hl2, hml2⟩
          exact ⟨l2, List.mem_cons_of_mem l hl2, hml2⟩
        · intro ⟨l2, hl2, hml2⟩
          rcases List.mem_cons.mp hl2 with h2 | h2
          · exact absurd (h2 ▸ hml2) hm
          · exact ⟨l2, h2, hml2⟩

/-! ### Round-trip machinery for C3 -/

theorem trim_within (s : String) : (trim s).data <:+: s.data := by
  rw [trim]
  have h1 : s.data.dropWhile isTrimChar <:+ s.data := List.dropWhile_suffix _
  have h3 : (s.data.dropWhile isTrimChar).reverse.dropWhile isTrimChar <:+
      (s.data.dropWhile isTrimChar).reverse := List.dropWhile_suffix _
  have h2 : ((s.data.dropWhile isTrimChar).reverse.dropWhile isTrimChar).reverse <+:
      s.data.dropWhile isTrimChar := by
    have h4 := List.reverse_prefix.mpr h3
    simpa using h4
  exact (h2.isInfix).trans h1.isInfix

theorem findCloseBracket_split (l a b : List Char)
    (h : findCloseBracket l = some (a, b)) : l = a ++ ']' :: b := by
  induction l generalizing a b with
  | nil => exact absurd h (by simp [findCloseBracket])
  | cons c rest ih =>
    by_cases hc : c = ']'
    · subst hc
      simp only [findCloseBracket, Option.some.injEq, Prod.mk.injEq] at h
      rw [← h.1, ← h.2]
      simp
    · rw [show findCloseBracket (c :: rest) =
          (findCloseBracket rest).map (fun p => (c :: p.1, p.2)) from by
        rw [findCloseBracket.eq_def]
        split
        · rename_i heq
          exact absurd heq (by simp)
        · rename_i heq
          rw [List.cons_eq_cons] at heq
          exact absurd heq.1 hc
        · rename_i c2 rest2 hne heq
          rw [List.cons_eq_cons] at heq
          obtain ⟨hh1, hh2⟩ := heq
          subst hh1 hh2
          rfl] at h
      rcases hr : findCloseBracket rest with _ | p <;> rw [hr] at h
      · simp at h
      · simp only [Option.map_some', Option.some.injEq, Prod.mk.injEq] at h
        obtain ⟨ha, hb⟩ := h
        rw [← ha, ← hb]
        simp [ih p.1 p.2 hr]

theorem bracketMatch_m1_within (s m1 m2 : String)
    (h : bracketMatch s = some (m1, m2)) : m1.data <:+: s.data := by
  rw [bracketMatch] at h
  split at h
  · rename_i c rest2 heq
    split at h
    · exact absurd h (by simp)
    · rename_i a b hf
      simp only [Option.some.injEq, Prod.mk.injEq] at h
      obtain ⟨hm1, hm2⟩ := h
      subst hm1
      have hsplit := findCloseBracket_split rest2 a b hf
      have hsuf : ('[' :: c :: rest2) <:+ s.data := heq ▸ List.dropWhile_suffix _
      refine List.IsInfix.trans ?_ hsuf.isInfix
      rw [hsplit]
      exact ⟨['['], ']' :: b, by simp⟩
  · exact absurd h (by simp)

theorem trim_noSep (s : String) (h : hasBarSep s.data = false) :
    hasBarSep (trim s).data = false :=
  hasBarSep_mono _ _ (trim_within s) h

theorem parseOneSide_id_noSep (s : String) (h : hasBarSep s.data = false) :
    hasBarSep (parseOneSide s).1.data = false := by
  rw [parseOneSide]
  rcases hb : bracketMatch s with _ | ⟨m1, m2⟩
  · exact trim_noSep s h
  · have hm1 : hasBarSep m1.data = false :=
      hasBarSep_mono _ _ (bracketMatch_m1_within s m1 m2 hb) h
    by_cases h1 : trim m2 = "`"
    · simp only [if_pos h1]
      exact trim_noSep m1 hm1
    · by_cases h2 : trim m2 = "```"
      · simp only [if_neg h1, if_pos h2]
        exact trim_noSep m1 hm1
      · simp only [if_neg h1, if_neg h2]
        exact trim_noSep m1 hm1

theorem parseTwoSides_id_noSep (s1 s2 : String) (h : hasBarSep s1.data = false) :
    hasBarSep (parseTwoSides s1 s2).1.data = false := by
  rw [parseTwoSides]
  have hid : hasBarSep (match bracketMatch s1 with
      | none => (trim s1, trim s1)
      | some (m1, m2) => (trim m1, trim m2)).1.data = false := by
    rcases hb : bracketMatch s1 with _ | ⟨m1, m2⟩
    · exact trim_noSep s1 h
    · exact trim_noSep m1 (hasBarSep_mono _ _ (bracketMatch_m1_within s1 m1 m2 hb) h)
  by_cases h1 : trim s2 = "`"
  · simp only [if_pos h1]
    exact hid
  · by_cases h2 : trim s2 = "```"
    · simp only [if_neg h1, if_pos h2]
      exact hid
    · simp only [if_neg h1, if_neg h2]
      exact hid

theorem splitOnBar_mem_noSep (line f : String) (h : f ∈ splitOnBar line) :
    hasBarSep f.data = false := by
  rw [splitOnBar] at h
  obtain ⟨l, hl, hf⟩ := List.mem_map.mp h
  rw [← hf]
  exact splitBarAux_mem_noSep line.data l hl

/-- The identity-relevant projection of a card: its id and whether it is
defined in the card file. -/
def cardPair (c : Card) : String × Bool := (c.Id, c.InCardFile)

theorem map_id_eq_pairs (l : List Card) :
    l.map Card.Id = (l.map cardPair).map Prod.fst := by
  rw [List.map_map]
  rfl

theorem updLast_pair (f : Card → Card)
    (hf : ∀ c, (f c).Id = c.Id ∧ (f c).InCardFile = c.InCardFile) (cards : List Card) :
    (updLast f cards).map cardPair = cards.map cardPair := by
  induction cards with
  | nil => rfl
  | cons c rest ih =>
    cases rest with
    | nil => simp [updLast, cardPair, (hf c).1, (hf c).2]
    | cons d rest2 =>
      rw [show updLast f (c :: d :: rest2) = c :: updLast f (d :: rest2) from rfl]
      simp only [List.map_cons]
      rw [ih]
      simp

theorem pair_mem_transfer (l1 l2 : List Card)
    (h : l1.map cardPair = l2.map cardPair) (P : String → Bool → Prop)
    (hp : ∀ c ∈ l2, P c.Id c.InCardFile) : ∀ c ∈ l1, P c.Id c.InCardFile := by
  intro c hc
  have : cardPair c ∈ l2.map cardPair := h ▸ List.mem_map_of_mem cardPair hc
  obtain ⟨c2, hc2, hpair⟩ := List.mem_map.mp this
  have h1 : c2.Id = c.Id := congrArg Prod.fst hpair
  have h2 : c2.InCardFile = c.InCardFile := congrArg Prod.snd hpair
  rw [← h1, ← h2]
  exact hp c2 hc2

/-- The invariant of the `LoadCards` scanner used for the round trip: the
seen-id set mirrors the card ids, ids are distinct, and every accumulated
card is a defined card whose id contains no separator. -/
def scanInv (st : ScanState) : Prop :=
  st.fronts = (st.cards.map Card.Id).reverse ∧
  (st.cards.map Card.Id).Nodup ∧
  ∀ c ∈ st.cards, c.InCardFile = true ∧ hasBarSep c.Id.data = false

theorem addCard_ok_guards (fronts : List String) (cards : List Card)
    (id front back : String) (p : List String × List Card)
    (h : addCard fronts cards id front back = Except.ok p) :
    fronts.contains (trim id) = false := by
  simp only [addCard] at h
  split at h
  · exact absurd h (by simp)
  · split at h
    · exact absurd h (by simp)
    · rename_i hc
      simp at hc
      simp [hc]

/-- A successful scanner step in a multi-line state keeps the seen-id set
and the id/defined projection of the card list. -/
theorem processLine_multi_shape (st : ScanState) (line : String) (st2 : ScanState)
    (hps : st.parseState ≠ ParseState.newCard)
    (h : processLine st line = Except.ok st2) :
    st2.fronts = st.fronts ∧ st2.cards.map cardPair = st.cards.map cardPair := by
  obtain ⟨fr, cs, ps, n⟩ := st
  simp only at hps
  have hupd : ∀ f : Card → Card,
      (∀ c, (f c).Id = c.Id ∧ (f c).InCardFile = c.InCardFile) →
      (updLast f cs).map cardPair = cs.map cardPair := fun f hf => updLast_pair f hf cs
  cases ps with
  | newCard => exact absurd rfl hps
  | frontMulti =>
    simp only [processLine] at h
    by_cases hcs : cs = []
    · rw [if_pos hcs] at h
      exact absurd h (by simp)
    · rw [if_neg hcs] at h
      by_cases h1 : line = "` | `"
      · rw [if_pos h1] at h
        cases h
        exact ⟨rfl, rfl⟩
      · rw [if_neg h1] at h
        by_cases h2 : line = "` | ```"
        · rw [if_pos h2] at h
          cases h
          exact ⟨rfl, hupd _ (fun c => ⟨rfl, rfl⟩)⟩
        · rw [if_neg h2] at h
          by_cases h3 : strStartsWith line "` | " = true
          · rw [if_pos h3] at h
            cases h
            exact ⟨rfl, hupd _ (fun c => ⟨rfl, rfl⟩)⟩
          · rw [if_neg h3] at h
            cases h
            refine ⟨rfl, hupd _ (fun c => ?_)⟩
            by_cases hfr : c.Front = "" <;> simp [hfr]
  | frontMultiCode =>
    simp only [processLine] at h
    by_cases hcs : cs = []
    · rw [if_pos hcs] at h
      exact absurd h (by simp)
    · rw [if_neg hcs] at h
      by_cases h1 : line = "``` | `"
      · rw [if_pos h1] at h
        cases h
        exact ⟨rfl, hupd _ (fun c => ⟨rfl, rfl⟩)⟩
      · rw [if_neg h1] at h
        by_cases h2 : line = "``` | ```"
        · rw [if_pos h2] at h
          cases h
          exact ⟨rfl, hupd _ (fun c => ⟨rfl, rfl⟩)⟩
        · rw [if_neg h2] at h
          by_cases h3 : strStartsWith line "``` | " = true
          · rw [if_pos h3] at h
            cases h
            exact ⟨rfl, hupd _ (fun c => ⟨rfl, rfl⟩)⟩
          · rw [if_neg h3] at h
            cases h
            exact ⟨rfl, hupd _ (fun c => ⟨rfl, rfl⟩)⟩
  | backMulti =>
    simp only [processLine] at h
    by_cases hcs : cs = []
    · rw [if_pos hcs] at h
      exact absurd h (by simp)
    · rw [if_neg hcs] at h
      by_cases h1 : line = "`"
      · rw [if_pos h1] at h
        cases h
        exact ⟨rfl, rfl⟩
      · rw [if_neg h1] at h
        cases h
        refine ⟨rfl, hupd _ (fun c => ?_)⟩
        by_cases hbk : c.Back = "" <;> simp [hbk]
  | backMultiCode =>
    simp only [processLine] at h
    by_cases hcs : cs = []
    · rw [if_pos hcs] at h
      exact absurd h (by simp)
    · rw [if_neg hcs] at h
      by_cases h1 : line = "```"
      · rw [if_pos h1] at h
        cases h
        exact ⟨rfl, hupd _ (fun c => ⟨rfl, rfl⟩)⟩
      · rw [if_neg h1] at h
        cases h
        exact ⟨rfl, hupd _ (fun c => ⟨rfl, rfl⟩)⟩

theorem processLine_scanInv (st : ScanState) (line : String) (st2 : ScanState)
    (h : processLine st line = Except.ok st2) (hinv : scanInv st) : scanInv st2 := by
  by_cases hps : st.parseState = ParseState.newCard
  case neg =>
    obtain ⟨hfr, hpair⟩ := processLine_multi_shape st line st2 hps h
    obtain ⟨hinv1, hinv2, hinv3⟩ := hinv
    refine ⟨?_, ?_, ?_⟩
    · rw [hfr, hinv1, map_id_eq_pairs, map_id_eq_pairs, hpair]
    · rw [map_id_eq_pairs, hpair, ← map_id_eq_pairs]
      exact hinv2
    · exact pair_mem_transfer _ _ hpair
        (fun i b => b = true ∧ hasBarSep i.data = false) hinv3
  case pos =>
    obtain ⟨fr, cs, ps, n⟩ := st
    simp only at hps
    subst hps
    obtain ⟨hinv1, hinv2, hinv3⟩ := hinv
    simp only at hinv1 hinv2 hinv3
    simp only [processLine] at h
    by_cases hg : 0 < line.data.length ∧ ¬ strStartsWith line "#"
    · rw [if_pos hg] at h
      rcases hsides : splitOnBar line with _ | ⟨s0, _ | ⟨s1, _ | ⟨s2, more⟩⟩⟩ <;>
        rw [hsides] at h
      · exact absurd h (by simp)
      · rcases hadd : addCard fr cs (parseOneSide s0).1 (parseOneSide s0).2.1 ""
            with m | p <;> simp only [hadd] at h
        · exact absurd h (by simp)
        · cases h
          obtain ⟨hp2, hp1⟩ := addCard_ok_cards _ _ _ _ _ _ hadd
          have hnc := addCard_ok_guards _ _ _ _ _ _ hadd
          have hid_noSep : hasBarSep (trim (parseOneSide s0).1).data = false := by
            refine trim_noSep _ (parseOneSide_id_noSep s0 ?_)
            exact splitOnBar_mem_noSep line s0 (by rw [hsides]; exact List.mem_cons_self s0 [])
          have hnm : trim (parseOneSide s0).1 ∉ cs.map Card.Id := by
            intro hmem
            have hin : trim (parseOneSide s0).1 ∈ fr := by
              rw [hinv1, List.mem_reverse]
              exact hmem
            have hc2 : fr.contains (trim (parseOneSide s0).1) = true :=
              List.elem_iff.mpr hin
            rw [hc2] at hnc
            exact absurd hnc (by simp)
          refine ⟨?_, ?_, ?_⟩
          · simp only [hp1, hp2, List.map_append]
            rw [hinv1]
            simp [NewCard]
          · simp only [hp2, List.map_append]
            simp only [List.nodup_append, List.nodup_cons]
            refine ⟨hinv2, by simp, ?_⟩
            intro a ha hb
            simp only [List.map_cons, List.map_nil, List.mem_singleton, NewCard] at hb
            exact hnm (hb ▸ ha)
          · intro c hc
            rw [hp2] at hc
            rcases List.mem_append.mp hc with hc | hc
            · exact hinv3 c hc
            · simp only [List.mem_singleton] at hc
              subst hc
              exact ⟨rfl, hid_noSep⟩
      · rcases hadd : addCard fr cs (parseTwoSides s0 s1).1 (parseTwoSides s0 s1).2.1
            (parseTwoSides s0 s1).2.2.1 with m | p <;> simp only [hadd] at h
        · exact absurd h (by simp)
        · cases h
          obtain ⟨hp2, hp1⟩ := addCard_ok_cards _ _ _ _ _ _ hadd
          have hnc := addCard_ok_guards _ _ _ _ _ _ hadd
          have hid_noSep : hasBarSep (trim (parseTwoSides s0 s1).1).data = false := by
            refine trim_noSep _ (parseTwoSides_id_noSep s0 s1 ?_)
            exact splitOnBar_mem_noSep line s0 (by rw [hsides]; exact List.mem_cons_self s0 [s1])
          have hnm : trim (parseTwoSides s0 s1).1 ∉ cs.map Card.Id := by
            intro hmem
            have hin : trim (parseTwoSides s0 s1).1 ∈ fr := by
              rw [hinv1, List.mem_reverse]
              exact hmem
            have hc2 : fr.contains (trim (parseTwoSides s0 s1).1) = true :=
              List.elem_iff.mpr hin
            rw [hc2] at hnc
            exact absurd hnc (by simp)
          refine ⟨?_, ?_, ?_⟩
          · simp only [hp1, hp2, List.map_append]
            rw [hinv1]
            simp [NewCard]
          · simp only [hp2, List.map_append]
            simp only [List.nodup_append, List.nodup_cons]
            refine ⟨hinv2, by simp, ?_⟩
            intro a ha hb
            simp only [List.map_cons, List.map_nil, List.mem_singleton, NewCard] at hb
            exact hnm (hb ▸ ha)
          · intro c hc
            rw [hp2] at hc
            rcases List.mem_append.mp hc with hc | hc
            · exact hinv3 c hc
            · simp only [List.mem_singleton] at hc
              subst hc
              exact ⟨rfl, hid_noSep⟩
      · exact absurd h (by simp)
    · rw [if_neg hg] at h
      cases h
      exact ⟨hinv1, hinv2, hinv3⟩

theorem scanLines_scanInv (lines : List String) (st st2 : ScanState)
    (h : scanLines st lines = Except.ok st2) (hinv : scanInv st) : scanInv st2 := by
  induction lines generalizing st with
  | nil =>
    simp only [scanLines] at h
    cases h
    exact hinv
  | cons l ls ih =>
    rcases hp : processLine st l with e | st0
    · rw [scanLines_cons_err st e l ls hp] at h
      exact absurd h (by simp)
    · rw [scanLines_cons_ok st st0 l ls hp] at h
      exact ih st0 h (processLine_scanInv st l st0 hp hinv)

/-- The invariant of a card list produced by a successful `LoadCards`:
distinct ids, every card defined in the file, no id containing the
separator. -/
def cardsInv (cards : List Card) : Prop :=
  (cards.map Card.Id).Nodup ∧
  ∀ c ∈ cards, c.InCardFile = true ∧ hasBarSep c.Id.data = false

theorem LoadCards_inv (lines : List String) (cards : List Card)
    (h : LoadCards lines = Except.ok cards) : cardsInv cards := by
  rw [LoadCards] at h
  rcases hs : scanLines initState lines with e | st <;> rw [hs] at h
  · exact absurd h (by simp)
  · have hinv := scanLines_scanInv lines initState st hs
      ⟨rfl, List.nodup_nil, fun c hc => absurd hc (List.not_mem_nil c)⟩
    have h2 : (if st.parseState ≠ ParseState.newCard then
        Except.error (⟨"Invalid parse state", st.lineNumber⟩ : LoadError)
        else Except.ok st.cards) = Except.ok cards := h
    by_cases hps : st.parseState ≠ ParseState.newCard
    · rw [if_pos hps] at h2
      exact absurd h2 (by simp)
    · rw [if_neg hps] at h2
      cases h2
      exact ⟨hinv.2.1, hinv.2.2⟩

theorem updFirst_pair (id : String) (t : Nat) (cc : Int) (cards : List Card) :
    ((updFirst id t cc cards).1).map cardPair = cards.map cardPair := by
  induction cards with
  | nil => rfl
  | cons c rest ih =>
    by_cases hc : c.Id = id
    · simp [updFirst, hc, cardPair]
    · simp only [updFirst, if_neg hc, List.map_cons]
      rw [ih]

theorem updFirst_found_iff (id : String) (t : Nat) (cc : Int) (cards : List Card) :
    (updFirst id t cc cards).2 = true ↔ ∃ c ∈ cards, c.Id = id := by
  induction cards with
  | nil => simp [updFirst]
  | cons c rest ih =>
    by_cases hc : c.Id = id
    · simp [updFirst, hc]
    · simp only [updFirst, if_neg hc]
      rw [ih]
      constructor
      · intro ⟨d, hd, hdid⟩
        exact ⟨d, List.mem_cons_of_mem c hd, hdid⟩
      · intro ⟨d, hd, hdid⟩
        rcases List.mem_cons.mp hd with h | h
        · exact absurd (h ▸ hdid) hc
        · exact ⟨d, h, hdid⟩

theorem filter_map_id_eq (l : List Card) :
    (l.filter (fun c => c.InCardFile)).map Card.Id =
      (l.map cardPair).filterMap (fun q => if q.2 then some q.1 else none) := by
  induction l with
  | nil => rfl
  | cons c rest ih =>
    by_cases hc : c.InCardFile <;>
      simp [List.filter_cons, List.filterMap_cons, hc, cardPair, ih]

/-- The invariant relating a merged card list to the defined cards: ids are
distinct, the defined sublist keeps exactly the definition ids in order,
and no id contains the separator. -/
def dataInv (defs cards : List Card) : Prop :=
  (cards.map Card.Id).Nodup ∧
  (cards.filter (fun c => c.InCardFile)).map Card.Id = defs.map Card.Id ∧
  ∀ c ∈ cards, hasBarSep c.Id.data = false

theorem mergeRecord_dataInv (defs cards : List Card) (id : String) (t : Nat)
    (cc : Int) (hinv : dataInv defs cards) (hid : hasBarSep id.data = false) :
    dataInv defs (mergeRecord cards id t cc) := by
  obtain ⟨h1, h2, h3⟩ := hinv
  rw [mergeRecord]
  by_cases hf : (updFirst id t cc cards).2 = true
  · rw [if_pos hf]
    have hpair := updFirst_pair id t cc cards
    refine ⟨?_, ?_, ?_⟩
    · rw [map_id_eq_pairs, hpair, ← map_id_eq_pairs]
      exact h1
    · rw [filter_map_id_eq, hpair, ← filter_map_id_eq]
      exact h2
    · exact pair_mem_transfer _ _ hpair (fun i _ => hasBarSep i.data = false) h3
  · rw [if_neg hf]
    have hnm : id ∉ cards.map Card.Id := by
      intro hmem
      obtain ⟨c, hc, hcid⟩ := List.mem_map.mp hmem
      exact hf ((updFirst_found_iff id t cc cards).mpr ⟨c, hc, hcid⟩)
    refine ⟨?_, ?_, ?_⟩
    · simp only [List.map_append, List.nodup_append, List.nodup_cons]
      refine ⟨h1, by simp, ?_⟩
      intro a ha hb
      simp only [List.map_cons, List.map_nil, List.mem_singleton, NewCardStats] at hb
      exact hnm (hb ▸ ha)
    · rw [List.filter_append]
      simp only [List.filter_cons, NewCardStats]
      simp only [Bool.false_eq_true, if_false, List.filter_nil, List.append_nil]
      exact h2
    · intro c hc
      rcases List.mem_append.mp hc with hc | hc
      · exact h3 c hc
      · simp only [List.mem_singleton] at hc
        subst hc
        exact hid

theorem processDataLine_dataInv (defs cards cards2 : List Card) (line : String)
    (h : processDataLine cards line = Except.ok cards2) (hinv : dataInv defs cards) :
    dataInv defs cards2 := by
  rw [processDataLine] at h
  rcases hs : splitOnBar line with _ | ⟨a, _ | ⟨b, _ | ⟨c, _ | ⟨d, more⟩⟩⟩⟩ <;>
    rw [hs] at h
  · exact absurd h (by simp)
  · exact absurd h (by simp)
  · exact absurd h (by simp)
  · rcases ht : unmarshalTime b with _ | t <;> simp only [ht] at h
    · exact absurd h (by simp)
    · rcases ha : goAtoi c with _ | n <;> simp only [ha] at h
      · exact absurd h (by simp)
      · cases h
        refine mergeRecord_dataInv defs cards a t n hinv ?_
        exact splitOnBar_mem_noSep line a (by rw [hs]; exact List.mem_cons_self a [b, c])
  · exact absurd h (by simp)

theorem processDataLines_dataInv (lines : List String) (defs cards cards2 : List Card)
    (h : processDataLines cards lines = Except.ok cards2) (hinv : dataInv defs cards) :
    dataInv defs cards2 := by
  induction lines generalizing cards with
  | nil =>
    simp only [processDataLines] at h
    cases h
    exact hinv
  | cons l ls ih =>
    rcases hp : processDataLine cards l with e | cards0 <;> simp only [processDataLines, hp] at h
    · exact absurd h (by simp)
    · exact ih cards0 h (processDataLine_dataInv defs cards cards0 l hp hinv)

/-- A successful `CardSet.Load` yields the parsed definitions together with
the merged card list satisfying the data invariant. -/
theorem loadCardSet_inv (defLines : List String) (prog : Option (List String))
    (cards : List Card) (h : loadCardSet defLines prog = some cards) :
    ∃ defs, LoadCards defLines = Except.ok defs ∧
      LoadCardData prog defs = Except.ok cards ∧
      (∀ c ∈ defs, c.InCardFile = true) ∧ dataInv defs cards := by
  rw [loadCardSet] at h
  rcases hdef : LoadCards defLines with e | defs <;> rw [hdef] at h
  · exact absurd h (by simp)
  · have h2 : (match LoadCardData prog defs with
        | Except.error _ => none
        | Except.ok cards2 => some cards2) = some cards := h
    rcases hdat : LoadCardData prog defs with e | cards0 <;> rw [hdat] at h2
    · exact absurd h2 (by simp)
    · simp only [Option.some.injEq] at h2
      subst h2
      obtain ⟨hnd, hmem⟩ := LoadCards_inv defLines defs hdef
      have hseed : dataInv defs defs := by
        refine ⟨hnd, ?_, fun c hc => (hmem c hc).2⟩
        rw [List.filter_eq_self.mpr (fun c hc => by simp [(hmem c hc).1])]
      refine ⟨defs, rfl, hdat, fun c hc => (hmem c hc).1, ?_⟩
      rcases prog with _ | lines
      · simp only [LoadCardData, Except.ok.injEq] at hdat
        subst hdat
        exact hseed
      · simp only [LoadCardData] at hdat
        exact processDataLines_dataInv lines defs defs cards0 hdat hseed

theorem updFirst_mem_pres (id : String) (t : Nat) (cc : Int) (cards : List Card)
    (c2 : Card) (hc2 : c2 ∈ cards) (hne : c2.Id ≠ id) :
    c2 ∈ (updFirst id t cc cards).1 := by
  induction cards with
  | nil => exact absurd hc2 (List.not_mem_nil c2)
  | cons c rest ih =>
    by_cases hc : c.Id = id
    · simp only [updFirst, if_pos hc]
      rcases List.mem_cons.mp hc2 with h | h
      · exact absurd (h ▸ hc) hne
      · exact List.mem_cons_of_mem _ h
    · simp only [updFirst, if_neg hc]
      rcases List.mem_cons.mp hc2 with h | h
      · exact h ▸ List.mem_cons_self _ _
      · exact List.mem_cons_of_mem _ (ih h)

theorem mergeRecord_mem_pres (cards : List Card) (id : String) (t : Nat) (cc : Int)
    (c2 : Card) (hc2 : c2 ∈ cards) (hne : c2.Id ≠ id) :
    c2 ∈ mergeRecord cards id t cc := by
  rw [mergeRecord]
  by_cases hf : (updFirst id t cc cards).2 = true
  · rw [if_pos hf]
    exact updFirst_mem_pres id t cc cards c2 hc2 hne
  · rw [if_neg hf]
    exact List.mem_append_left _ hc2

theorem updFirst_establish (id : String) (t : Nat) (cc : Int) (cards : List Card)
    (hex : ∃ d ∈ cards, d.Id = id) :
    ∃ c2 ∈ (updFirst id t cc cards).1, c2.Id = id ∧ c2.LastReviewTime = t ∧
      c2.CorrectCount = cc := by
  induction cards with
  | nil =>
    obtain ⟨d, hd, _⟩ := hex
    exact absurd hd (List.not_mem_nil d)
  | cons c rest ih =>
    by_cases hc : c.Id = id
    · simp only [updFirst, if_pos hc]
      exact ⟨_, List.mem_cons_self _ _, hc, rfl, rfl⟩
    · simp only [updFirst, if_neg hc]
      have hex2 : ∃ d ∈ rest, d.Id = id := by
        obtain ⟨d, hd, hdid⟩ := hex
        rcases List.mem_cons.mp hd with h | h
        · exact absurd (h ▸ hdid) hc
        · exact ⟨d, h, hdid⟩
      obtain ⟨c2, hc2, hp⟩ := ih hex2
      exact ⟨c2, List.mem_cons_of_mem _ hc2, hp⟩

theorem mergeRecord_establish (cards : List Card) (id : String) (t : Nat) (cc : Int)
    (hex : ∃ d ∈ cards, d.Id = id) :
    ∃ c2 ∈ mergeRecord cards id t cc, c2.Id = id ∧ c2.LastReviewTime = t ∧
      c2.CorrectCount = cc := by
  rw [mergeRecord]
  rw [if_pos ((updFirst_found_iff id t cc cards).mpr hex)]
  exact updFirst_establish id t cc cards hex

theorem mergeRecord_id_pres (cards : List Card) (id : String) (t : Nat) (cc : Int)
    (d : Card) (hd : d ∈ cards) : ∃ d2 ∈ mergeRecord cards id t cc, d2.Id = d.Id := by
  by_cases hne : d.Id = id
  · obtain ⟨c2, hc2, hcid, _⟩ :=
      mergeRecord_establish cards id t cc ⟨d, hd, hne⟩
    exact ⟨c2, hc2, hcid.trans hne.symm⟩
  · exact ⟨d, mergeRecord_mem_pres cards id t cc d hd hne, rfl⟩

theorem mergeRecord_infile (cards : List Card) (id : String) (t : Nat) (cc : Int)
    (hall : ∀ d ∈ cards, d.InCardFile = true) (hex : ∃ d ∈ cards, d.Id = id) :
    ∀ d2 ∈ mergeRecord cards id t cc, d2.InCardFile = true := by
  rw [mergeRecord, if_pos ((updFirst_found_iff id t cc cards).mpr hex)]
  have hpair := updFirst_pair id t cc cards
  exact pair_mem_transfer _ _ hpair (fun _ b => b = true) hall

/-- Folding a batch of records into a card list, as `LoadCardData` does for
a saved progress file. -/
def mergeAll (base : List Card) (ks : List Card) : List Card :=
  ks.foldl (fun b c => mergeRecord b c.Id c.LastReviewTime c.CorrectCount) base

theorem mergeAll_mem_pres (ks base : List Card) (c2 : Card) (hc2 : c2 ∈ base)
    (hne : ∀ k ∈ ks, k.Id ≠ c2.Id) : c2 ∈ mergeAll base ks := by
  induction ks generalizing base with
  | nil => exact hc2
  | cons k rest ih =>
    rw [mergeAll, List.foldl_cons]
    refine ih _ ?_ (fun k2 hk2 => hne k2 (List.mem_cons_of_mem k hk2))
    refine mergeRecord_mem_pres base k.Id k.LastReviewTime k.CorrectCount c2 hc2 ?_
    exact fun he => hne k (List.mem_cons_self k rest) he.symm

theorem mergeAll_id_pres (ks base : List Card) (d : Card) (hd : d ∈ base) :
    ∃ d2 ∈ mergeAll base ks, d2.Id = d.Id := by
  induction ks generalizing base d with
  | nil => exact ⟨d, hd, rfl⟩
  | cons k rest ih =>
    rw [mergeAll, List.foldl_cons]
    obtain ⟨d2, hd2, hid⟩ :=
      mergeRecord_id_pres base k.Id k.LastReviewTime k.CorrectCount d hd
    obtain ⟨d3, hd3, hid3⟩ := ih _ d2 hd2
    exact ⟨d3, hd3, hid3.trans hid⟩

theorem mergeAll_infile (ks base : List Card)
    (hall : ∀ d ∈ base, d.InCardFile = true)
    (hex : ∀ k ∈ ks, ∃ d ∈ base, d.Id = k.Id) :
    ∀ d2 ∈ mergeAll base ks, d2.InCardFile = true := by
  induction ks generalizing base with
  | nil => exact hall
  | cons k rest ih =>
    rw [mergeAll, List.foldl_cons]
    refine ih _ ?_ ?_
    · refine mergeRecord_infile base k.Id k.LastReviewTime k.CorrectCount hall ?_
      exact hex k (List.mem_cons_self k rest)
    · intro k2 hk2
      obtain ⟨d, hd, hdid⟩ := hex k2 (List.mem_cons_of_mem k hk2)
      obtain ⟨d2, hd2, hid2⟩ :=
        mergeRecord_id_pres base k.Id k.LastReviewTime k.CorrectCount d hd
      exact ⟨d2, hd2, hid2.trans hdid⟩

theorem splitOnBar_saveLine (c : Card) (h1 : hasBarSep c.Id.data = false)
    (h2 : endsBarPair c.Id.data = false) :
    splitOnBar (saveLine c) =
      [c.Id, marshalTime c.LastReviewTime, intStr c.CorrectCount] := by
  rw [splitOnBar, saveLine]
  have hdata : (c.Id ++ " | " ++ marshalTime c.LastReviewTime ++ " | " ++
      intStr c.CorrectCount).data =
      c.Id.data ++ barSep ++ ((marshalTime c.LastReviewTime).data ++ barSep ++
        (intStr c.CorrectCount).data) := by
    simp only [String.data_append, List.append_assoc]
    rfl
  rw [hdata]
  rw [splitBarAux_append _ _ h1 h2]
  rw [splitBarAux_append _ _ (marshalTime_noSep _).1 (marshalTime_noSep _).2]
  rw [splitBarAux_noSep _ (intStr_noSep _)]
  rfl

theorem processDataLine_saveLine (base : List Card) (c : Card)
    (h1 : hasBarSep c.Id.data = false) (h2 : endsBarPair c.Id.data = false) :
    processDataLine base (saveLine c) =
      Except.ok (mergeRecord base c.Id c.LastReviewTime c.CorrectCount) := by
  rw [processDataLine, splitOnBar_saveLine c h1 h2]
  simp [unmarshal_marshal, goAtoi_intStr]

theorem processDataLines_save (ks base : List Card)
    (hok : ∀ c ∈ ks, hasBarSep c.Id.data = false ∧ endsBarPair c.Id.data = false) :
    processDataLines base (ks.map saveLine) = Except.ok (mergeAll base ks) := by
  induction ks generalizing base with
  | nil => rfl
  | cons k rest ih =>
    have hk := hok k (List.mem_cons_self k rest)
    rw [List.map_cons]
    simp only [processDataLines, processDataLine_saveLine base k hk.1 hk.2]
    rw [mergeAll, List.foldl_cons]
    exact ih _ (fun c hc => hok c (List.mem_cons_of_mem k hc))

/-- C3 (amended): saving a successfully loaded card list and re-loading the
same definition and progress files reproduces the identical triple
`(Id, CorrectCount, LastReviewTime)` for every card defined in the
definition file, and with `clean = true` no orphaned card remains after the
round trip — provided no saved card's id ends with the two characters
`" |"` (ids never contain the full separator `" | "`, but an id ending in
`" |"` makes the written record split at the wrong place and the re-load
fail, see the counterexample). -/
theorem C3_round_trip (defLines : List String) (prog : Option (List String))
    (clean : Bool) (cards : List Card)
    (hload : loadCardSet defLines prog = some cards)
    (hids : ∀ c ∈ savedCards cards clean, endsBarPair c.Id.data = false) :
    ∃ cards2,
      loadCardSet defLines (some (SaveCardData cards clean)) = some cards2 ∧
      (∀ c ∈ cards, c.InCardFile = true →
        ∃ c2 ∈ cards2, c2.Id = c.Id ∧ c2.CorrectCount = c.CorrectCount ∧
          c2.LastReviewTime = c.LastReviewTime) ∧
      (clean = true → ∀ c2 ∈ cards2, c2.InCardFile = true) := by
  obtain ⟨defs, hdef, hdat, hdefsIn, hinv⟩ := loadCardSet_inv defLines prog cards hload
  obtain ⟨hnd, hfil, hnos⟩ := hinv
  set ks := savedCards cards clean with hks
  have hksSub : ∀ c ∈ ks, c ∈ cards := fun c hc => List.mem_of_mem_filter hc
  have hksOk : ∀ c ∈ ks, hasBarSep c.Id.data = false ∧ endsBarPair c.Id.data = false :=
    fun c hc => ⟨hnos c (hksSub c hc), hids c hc⟩
  have hsave : SaveCardData cards clean = ks.map saveLine := by
    rw [SaveCardData, ← hks]
  have hreload : LoadCardData (some (SaveCardData cards clean)) defs =
      Except.ok (mergeAll defs ks) := by
    rw [hsave]
    exact processDataLines_save ks defs hksOk
  refine ⟨mergeAll defs ks, ?_, ?_, ?_⟩
  · simp only [loadCardSet, hdef, hreload]
  · intro c hc hcIn
    have hcks : c ∈ ks := by
      rw [hks, savedCards, List.mem_filter]
      exact ⟨hc, by simp [hcIn]⟩
    obtain ⟨k1, k2, hsplit⟩ := List.append_of_mem hcks
    have hknd : (ks.map Card.Id).Nodup :=
      hnd.sublist ((List.filter_sublist cards).map Card.Id)
    have hcfil : c ∈ cards.filter (fun x => x.InCardFile) :=
      List.mem_filter.mpr ⟨hc, by simp [hcIn]⟩
    have hcid : c.Id ∈ defs.map Card.Id := hfil ▸ List.mem_map_of_mem Card.Id hcfil
    obtain ⟨d, hd, hdid⟩ := List.mem_map.mp hcid
    have hfold : mergeAll defs ks =
        mergeAll (mergeRecord (mergeAll defs k1) c.Id c.LastReviewTime c.CorrectCount) k2 := by
      rw [hsplit, mergeAll, List.foldl_append, List.foldl_cons]
      rfl
    obtain ⟨d1, hd1, hd1id⟩ := mergeAll_id_pres k1 defs d hd
    obtain ⟨c2, hc2mem, hc2id, hc2t, hc2cc⟩ :=
      mergeRecord_establish (mergeAll defs k1) c.Id c.LastReviewTime c.CorrectCount
        ⟨d1, hd1, hd1id.trans hdid⟩
    have hk2ne : ∀ k ∈ k2, k.Id ≠ c2.Id := by
      rw [hc2id]
      intro k hk he
      have hnd2 : ((k1 ++ c :: k2).map Card.Id).Nodup := hsplit ▸ hknd
      rw [List.map_append, List.map_cons] at hnd2
      have hh := (List.nodup_append.mp hnd2).2.1
      rw [List.nodup_cons] at hh
      exact hh.1 (he ▸ List.mem_map_of_mem Card.Id hk)
    have hc2fin : c2 ∈ mergeAll
        (mergeRecord (mergeAll defs k1) c.Id c.LastReviewTime c.CorrectCount) k2 :=
      mergeAll_mem_pres k2 _ c2 hc2mem hk2ne
    rw [hfold]
    exact ⟨c2, hc2fin, hc2id, hc2cc, hc2t⟩
  · intro hclean
    subst hclean
    have hksfil : ks = cards.filter (fun c => c.InCardFile) := by
      rw [hks, savedCards]
      simp
    refine mergeAll_infile ks defs hdefsIn ?_
    intro k hk
    have hkfil : k ∈ cards.filter (fun c => c.InCardFile) := hksfil ▸ hk
    have hkid : k.Id ∈ defs.map Card.Id := hfil ▸ List.mem_map_of_mem Card.Id hkfil
    obtain ⟨d, hd, hdid⟩ := List.mem_map.mp hkid
    exact ⟨d, hd, hdid⟩

/-- C3 counterexample: the definition line `"[x |] y"` loads as a card with
id `"x |"`; saving writes the record `"x | | 0 | 0"`, which re-splits as
`["x", "| 0", "0"]`, so re-loading fails and the round trip of the claim
does not hold as stated. -/
theorem C3_counterexample :
    loadCardSet ["[x |] y"] none = some [⟨"x |", true, "y", "", 0, 0⟩] ∧
    SaveCardData [⟨"x |", true, "y", "", 0, 0⟩] true = ["x | | 0 | 0"] ∧
    splitOnBar "x | | 0 | 0" = ["x", "| 0", "0"] ∧
    loadCardSet ["[x |] y"] (some ["x | | 0 | 0"]) = none :=
  ⟨rfl, rfl, rfl, rfl⟩

/-- C3 witness: the amended round trip on the one-card file `"a | b"` with
no progress and `clean = true`. -/
theorem C3_round_trip_witness :
    ∃ cards2,
      loadCardSet ["a | b"]
        (some (SaveCardData [⟨"a", true, "a", "b", 0, 0⟩] true)) = some cards2 ∧
      (∀ c ∈ [(⟨"a", true, "a", "b", 0, 0⟩ : Card)], c.InCardFile = true →
        ∃ c2 ∈ cards2, c2.Id = c.Id ∧ c2.CorrectCount = c.CorrectCount ∧
          c2.LastReviewTime = c.LastReviewTime) ∧
      (true = true → ∀ c2 ∈ cards2, c2.InCardFile = true) :=
  C3_round_trip ["a | b"] none true [⟨"a", true, "a", "b", 0, 0⟩] rfl (by decide)

end Gocards
